import Mathlib

/-!
Shallow embedding of the funnel-guard analytical core
(`src/core/engine/FunnelAnalyzer.ts`, `src/core/engine/BreakDetector.ts`,
`src/core/engine/CauseAnalyzer.ts`, `src/utils/time.ts`).

Modelling conventions:
* JavaScript `number` values are modelled as exact rationals (`ℚ`).
* Calendar dates ("YYYY-MM-DD" strings) are modelled as epoch-day integers
  (`ℤ`); `daysDiff(from, to) = dayjs(to).diff(dayjs(from), "day")` becomes
  integer subtraction, and the lexicographic order used by
  `localeCompare` on fixed-width ISO dates coincides with the integer order.
* `Math.sqrt` and `Math.exp` are transcendental primitives: the embedding is
  parametrised over them (`sqrtFn`, `expFn : ℚ → ℚ`), and so are the
  display-formatting primitives `toFixed(1)` / `toFixed(0)` used only inside
  summary strings (`fmt1`, `fmt0 : ℚ → String`).
* JavaScript `Map` (insertion-ordered) is modelled as an association list in
  first-insertion order; a `Map` read with `get(k) ?? 0` is modelled as a
  total function with default `0`.
* JavaScript's `Array.prototype.sort` (stable since ES2019) is modelled as
  `List.insertionSort`, which is stable.
-/

/-- The five ordered funnel stages (`FunnelStage` in `entities/Event.ts`). -/
inductive FunnelStage : Type
  | impression
  | click
  | landing
  | lead
  | purchase
deriving DecidableEq, Repr, Fintype

/-- Runtime string value of each `FunnelStage` enum member. -/
def stageName : FunnelStage → String
  | .impression => "impression"
  | .click => "click"
  | .landing => "landing"
  | .lead => "lead"
  | .purchase => "purchase"

/-- `STAGE_ORDER` from `entities/Event.ts`. -/
def STAGE_ORDER : List FunnelStage :=
  [.impression, .click, .landing, .lead, .purchase]

/-- An input event (`Event` in `entities/Event.ts`); the optional `id` and
`source` fields are never read by the core and are omitted. `count` is a
non-negative integer (validated at ingestion). -/
structure Event : Type where
  date : ℤ
  funnelId : String
  stage : FunnelStage
  count : ℕ
deriving DecidableEq, Repr

/-- One per-(funnel, date) aggregate (`FunnelSnapshot` in `entities/Event.ts`).
The `Record<FunnelStage, number>` of stage counts is modelled as a total
function. -/
structure FunnelSnapshot : Type where
  date : ℤ
  funnelId : String
  stageCounts : FunnelStage → ℕ

instance : DecidableEq FunnelSnapshot := fun a b =>
  decidable_of_iff
    (a.date = b.date ∧ a.funnelId = b.funnelId ∧ a.stageCounts = b.stageCounts)
    (by cases a; cases b; simp)

/-- One entry of `ConversionRates.rates` in `entities/Event.ts`. -/
structure RateEntry : Type where
  fromStage : FunnelStage
  toStage : FunnelStage
  rate : ℚ
  fromCount : ℕ
  toCount : ℕ
deriving DecidableEq, Repr

/-- `ConversionRates` from `entities/Event.ts`. -/
structure ConversionRates : Type where
  date : ℤ
  funnelId : String
  rates : List RateEntry
deriving DecidableEq, Repr

/-- `BreakSeverity` from `entities/Diagnosis.ts`. -/
inductive BreakSeverity : Type
  | warning
  | significant
  | critical
deriving DecidableEq, Repr

/-- A detected conversion break (`Break` in `entities/Diagnosis.ts`); the
optional `id` field is never set by the core and is omitted. -/
structure Break : Type where
  funnelId : String
  fromStage : FunnelStage
  toStage : FunnelStage
  detectedDate : ℤ
  baselineRate : ℚ
  currentRate : ℚ
  absoluteDrop : ℚ
  relativeDrop : ℚ
  zScore : ℚ
  severity : BreakSeverity
deriving DecidableEq, Repr

/-- `ChangeCategory` from `entities/Change.ts`. -/
inductive ChangeCategory : Type
  | ad
  | site
  | external
  | tracking
  | pricing
  | audience
deriving DecidableEq, Repr

/-- A recorded external change (`Change` in `entities/Change.ts`). -/
structure Change : Type where
  id : Option String
  date : ℤ
  funnelId : String
  category : ChangeCategory
  description : String
  severity : ℚ
  affectedStages : Option (List String)
deriving DecidableEq, Repr

/-- The `scoreBreakdown` field of `CauseCandidate` in `entities/Diagnosis.ts`. -/
structure ScoreBreakdown : Type where
  temporalScore : ℚ
  categoryRelevanceScore : ℚ
  severityScore : ℚ
  stageMatchBonus : ℚ
deriving DecidableEq, Repr

/-- `CauseCandidate` from `entities/Diagnosis.ts`. -/
structure CauseCandidate : Type where
  changeId : String
  changeDescription : String
  changeCategory : ChangeCategory
  changeDate : ℤ
  changeSeverity : ℚ
  confidence : ℚ
  scoreBreakdown : ScoreBreakdown
deriving DecidableEq, Repr

/-- `DiagnosisStatus` from `entities/Diagnosis.ts`. -/
inductive DiagnosisStatus : Type
  | identified
  | uncertain
  | unknown
deriving DecidableEq, Repr

/-- `Diagnosis` from `entities/Diagnosis.ts`; the JS field `break` is renamed
`breakInfo` (`break` is a Lean keyword), and the optional `id` field, never
set by the core, is omitted. `generatedAt` is the ISO timestamp string
returned by `now()`. -/
structure Diagnosis : Type where
  generatedAt : String
  breakInfo : Break
  causes : List CauseCandidate
  diagnosisStatus : DiagnosisStatus
  summary : String
deriving DecidableEq, Repr

/-- `daysDiff(from, to)` from `utils/time.ts`: signed whole-day difference,
i.e. `to - from` on epoch days. -/
def daysDiff (fromDate toDate : ℤ) : ℤ := toDate - fromDate

/-! ### Funnel Analyzer (`core/engine/FunnelAnalyzer.ts`) -/

/-- Pointwise bump of a stage-count map: `stageCounts.set(stage, (get ?? 0) + count)`. -/
def updStage (m : FunnelStage → ℕ) (st : FunnelStage) (c : ℕ) : FunnelStage → ℕ :=
  fun s => if s = st then m st + c else m s

/-- One decimal digit character (`'0'` to `'9'`). -/
def digitChar (n : ℕ) : Char := Char.ofNat (48 + n)

/-- Decimal character rendering of a natural number, fuelled so the
recursion is structural (the fuel `n + 1` always suffices). -/
def natToChars : ℕ → ℕ → List Char
  | 0, _ => []
  | fuel + 1, n =>
    if n < 10 then [digitChar n] else natToChars fuel (n / 10) ++ [digitChar (n % 10)]

/-- Decimal character rendering of a natural number. -/
def natStr (n : ℕ) : List Char := natToChars (n + 1) n

/-- Character rendering of an epoch-day integer: the model's stand-in for
the "YYYY-MM-DD" text of the date (an injective rendering containing no
`'|'`, which is all the key mechanics of `buildSnapshots` rely on). -/
def intChars : ℤ → List Char
  | .ofNat m => natStr m
  | .negSucc m => '-' :: natStr (m + 1)

/-- Numeric value of one digit character. -/
def charDigit (c : Char) : ℕ := c.toNat - 48

/-- Decimal value of a digit-character list. -/
def charsToNat (l : List Char) : ℕ := l.foldl (fun acc c => 10 * acc + charDigit c) 0

/-- Partial inverse of `intChars`, reading an epoch-day integer back out of
a key segment. Where the segment is not a rendered date (possible only when
a funnelId contains `'|'`) it defaults to 0; the JS program carries the raw
non-date string onward there. -/
def parseDateChars (l : List Char) : ℤ :=
  if l.head? = some '-' then -(charsToNat (l.drop 1) : ℤ) else (charsToNat l : ℤ)

/-- `String.prototype.split("|")` on a character list: the (possibly empty)
segments between `'|'` separators, in order. -/
def barSplit : List Char → List (List Char)
  | [] => [[]]
  | c :: rest =>
    if c = '|' then [] :: barSplit rest
    else
      match barSplit rest with
      | [] => [[c]]
      | s :: ss => (c :: s) :: ss

/-- The grouping key template `` `${funnelId}|${date}` `` of `buildSnapshots`,
as a character list, for a given (funnelId, date) pair. -/
def pairKey (f : String) (d : ℤ) : List Char := f.data ++ '|' :: intChars d

/-- The grouping key of one event. -/
def snapKey (e : Event) : List Char := pairKey e.funnelId e.date

/-- First half of `const [funnelId, date] = key.split("|")`: the first
segment of the key. -/
def keyFunnelId (k : List Char) : String := String.mk ((barSplit k).headD [])

/-- Second half of `const [funnelId, date] = key.split("|")`: the second
segment of the key, read back as an epoch day (keys always contain `'|'`,
so the segment exists; the `headD` default models the unreachable
`undefined`). -/
def keyDate (k : List Char) : ℤ := parseDateChars (((barSplit k).drop 1).headD [])

/-- One step of the grouping loop in `buildSnapshots`: find the entry for
the string key `` `${funnelId}|${date}` `` (updating it in place) or append
a fresh entry at the end, exactly as an insertion-ordered `Map` behaves. -/
def insertEvent : List (List Char × (FunnelStage → ℕ)) → Event →
    List (List Char × (FunnelStage → ℕ))
  | [], e => [(snapKey e, updStage (fun _ => 0) e.stage e.count)]
  | (k, m) :: t, e =>
    if k = snapKey e then (k, updStage m e.stage e.count) :: t
    else (k, m) :: insertEvent t e

/-- Object-literal comparison used by the final sort in `buildSnapshots`:
`funnelId.localeCompare` first, then date. -/
def snapLe (a b : FunnelSnapshot) : Prop :=
  a.funnelId < b.funnelId ∨ (a.funnelId = b.funnelId ∧ a.date ≤ b.date)

instance : DecidableRel snapLe := fun a b =>
  inferInstanceAs (Decidable (a.funnelId < b.funnelId ∨ (a.funnelId = b.funnelId ∧ a.date ≤ b.date)))

instance : IsTotal FunnelSnapshot snapLe :=
  ⟨fun a b => by
    rcases lt_trichotomy a.funnelId b.funnelId with h | h | h
    · exact Or.inl (Or.inl h)
    · rcases le_total a.date b.date with hd | hd
      · exact Or.inl (Or.inr ⟨h, hd⟩)
      · exact Or.inr (Or.inr ⟨h.symm, hd⟩)
    · exact Or.inr (Or.inl h)⟩

instance : IsTrans FunnelSnapshot snapLe :=
  ⟨fun a b c hab hbc => by
    rcases hab with h1 | ⟨h1, h1d⟩
    · rcases hbc with h2 | ⟨h2, _⟩
      · exact Or.inl (h1.trans h2)
      · exact Or.inl (h2 ▸ h1)
    · rcases hbc with h2 | ⟨h2, h2d⟩
      · exact Or.inl (h1 ▸ h2)
      · exact Or.inr ⟨h1.trans h2, h1d.trans h2d⟩⟩

/-- `buildSnapshots(events)` from `FunnelAnalyzer.ts`: group events in an
insertion-ordered map keyed by the string `` `${funnelId}|${date}` ``,
summing counts per stage; then emit one snapshot per key, reconstructing
`funnelId` and `date` as the first two segments of `key.split("|")` (so a
funnelId that itself contains `'|'` yields a truncated funnelId and a wrong
date, as in the source), with unseen stages read as 0; sort by funnelId,
then date. -/
def buildSnapshots (events : List Event) : List FunnelSnapshot :=
  let grouped := events.foldl insertEvent []
  List.insertionSort snapLe
    (grouped.map fun km =>
      { date := keyDate km.1, funnelId := keyFunnelId km.1, stageCounts := km.2 })

/-- `calculateConversionRates(snapshots)` from `FunnelAnalyzer.ts`: for each
snapshot, the four adjacent stage-pair rates in pipeline order, with
`rate = fromCount > 0 ? toCount / fromCount : 0`. -/
def calculateConversionRates (snapshots : List FunnelSnapshot) : List ConversionRates :=
  snapshots.map fun snapshot =>
    { date := snapshot.date
      funnelId := snapshot.funnelId
      rates :=
        (STAGE_ORDER.zip STAGE_ORDER.tail).map fun p =>
          let fromCount : ℕ := snapshot.stageCounts p.1
          let toCount : ℕ := snapshot.stageCounts p.2
          { fromStage := p.1
            toStage := p.2
            rate := if fromCount > 0 then (toCount : ℚ) / (fromCount : ℚ) else 0
            fromCount := fromCount
            toCount := toCount } }

/-! ### Break Detector (`core/engine/BreakDetector.ts`) -/

/-- `BreakDetectorConfig`. Window widths and the data-point minimum are
whole-day / whole-count integers; thresholds are rationals. -/
structure BreakDetectorConfig : Type where
  baselineWindowDays : ℤ
  currentWindowDays : ℤ
  minRelativeDrop : ℚ
  minZScore : ℚ
  minBaselineDataPoints : ℤ
deriving DecidableEq, Repr

/-- `DEFAULT_BREAK_DETECTOR_CONFIG`. -/
def DEFAULT_BREAK_DETECTOR_CONFIG : BreakDetectorConfig :=
  { baselineWindowDays := 14
    currentWindowDays := 3
    minRelativeDrop := 15 / 100
    minZScore := 3 / 2
    minBaselineDataPoints := 7 }

/-- `Partial<BreakDetectorConfig>`: every field optional. -/
structure BreakDetectorConfigOpt : Type where
  baselineWindowDays : Option ℤ := none
  currentWindowDays : Option ℤ := none
  minRelativeDrop : Option ℚ := none
  minZScore : Option ℚ := none
  minBaselineDataPoints : Option ℤ := none
deriving DecidableEq, Repr

/-- The spread `{ ...DEFAULT_BREAK_DETECTOR_CONFIG, ...config }` in
`detectBreaks`. -/
def mergeBreakConfig (c : BreakDetectorConfigOpt) : BreakDetectorConfig :=
  { baselineWindowDays := c.baselineWindowDays.getD DEFAULT_BREAK_DETECTOR_CONFIG.baselineWindowDays
    currentWindowDays := c.currentWindowDays.getD DEFAULT_BREAK_DETECTOR_CONFIG.currentWindowDays
    minRelativeDrop := c.minRelativeDrop.getD DEFAULT_BREAK_DETECTOR_CONFIG.minRelativeDrop
    minZScore := c.minZScore.getD DEFAULT_BREAK_DETECTOR_CONFIG.minZScore
    minBaselineDataPoints :=
      c.minBaselineDataPoints.getD DEFAULT_BREAK_DETECTOR_CONFIG.minBaselineDataPoints }

/-- `RateDataPoint` (private to `BreakDetector.ts`). -/
structure RateDataPoint : Type where
  date : ℤ
  rate : ℚ
deriving DecidableEq, Repr

/-- Arithmetic mean (`mean` in `BreakDetector.ts`); 0 on the empty list. -/
def mean (values : List ℚ) : ℚ :=
  if values.length = 0 then 0 else values.sum / (values.length : ℚ)

/-- Sample standard deviation (`stddev` in `BreakDetector.ts`): 0 for fewer
than two points, else `sqrt(Σ(v - avg)² / (n - 1))`, with `Math.sqrt`
supplied as `sqrtFn`. -/
def stddev (sqrtFn : ℚ → ℚ) (values : List ℚ) : ℚ :=
  if values.length < 2 then 0
  else sqrtFn (((values.map fun v => (v - mean values) ^ 2).sum) / ((values.length : ℚ) - 1))

/-- `classifySeverity(relativeDrop, zScore)` from `BreakDetector.ts`. -/
def classifySeverity (relativeDrop zScore : ℚ) : BreakSeverity :=
  if relativeDrop > 40 / 100 ∨ |zScore| > 3 then .critical
  else if relativeDrop > 20 / 100 ∨ |zScore| > 2 then .significant
  else .warning

/-- One iteration of the detection loop in `detectBreaksInSeries`, at
candidate detection date `d`: window extraction, the three guards, and the
threshold test, returning the emitted break if any. -/
def breakAtDate (sqrtFn : ℚ → ℚ) (timeSeries : List RateDataPoint) (d : ℤ)
    (funnelId : String) (fromStage toStage : FunnelStage)
    (config : BreakDetectorConfig) : Option Break :=
  let currentPoints := timeSeries.filter fun dp =>
    0 ≤ daysDiff dp.date d ∧ daysDiff dp.date d < config.currentWindowDays
  let baselinePoints := timeSeries.filter fun dp =>
    config.currentWindowDays ≤ daysDiff dp.date d ∧
      daysDiff dp.date d < config.baselineWindowDays + config.currentWindowDays
  if (baselinePoints.length : ℤ) < config.minBaselineDataPoints then none
  else if currentPoints.length = 0 then none
  else
    let baselineMean := mean (baselinePoints.map (·.rate))
    let baselineStdDev := stddev sqrtFn (baselinePoints.map (·.rate))
    let currentMean := mean (currentPoints.map (·.rate))
    if baselineMean = 0 then none
    else
      let effectiveStdDev := max baselineStdDev (1 / 100)
      let absoluteDrop := baselineMean - currentMean
      let relativeDrop := absoluteDrop / baselineMean
      let zScore := absoluteDrop / effectiveStdDev
      if relativeDrop ≥ config.minRelativeDrop ∧ |zScore| ≥ config.minZScore then
        some
          { funnelId := funnelId
            fromStage := fromStage
            toStage := toStage
            detectedDate := d
            baselineRate := baselineMean
            currentRate := currentMean
            absoluteDrop := absoluteDrop
            relativeDrop := relativeDrop
            zScore := zScore
            severity := classifySeverity relativeDrop zScore }
      else none

/-- `detectBreaksInSeries` from `BreakDetector.ts`: run `breakAtDate` at each
point's date, in series order. -/
def detectBreaksInSeries (sqrtFn : ℚ → ℚ) (timeSeries : List RateDataPoint)
    (funnelId : String) (fromStage toStage : FunnelStage)
    (config : BreakDetectorConfig) : List Break :=
  timeSeries.filterMap fun dp =>
    breakAtDate sqrtFn timeSeries dp.date funnelId fromStage toStage config

/-- Date comparator used on `RateDataPoint` lists. -/
def dpDateLe (a b : RateDataPoint) : Prop := a.date ≤ b.date

instance : DecidableRel dpDateLe := fun a b => inferInstanceAs (Decidable (a.date ≤ b.date))

instance : IsTotal RateDataPoint dpDateLe := ⟨fun a b => le_total a.date b.date⟩

instance : IsTrans RateDataPoint dpDateLe := ⟨fun _ _ _ h1 h2 => le_trans h1 h2⟩

/-- Date comparator used on `ConversionRates` lists. -/
def crDateLe (a b : ConversionRates) : Prop := a.date ≤ b.date

instance : DecidableRel crDateLe := fun a b => inferInstanceAs (Decidable (a.date ≤ b.date))

instance : IsTotal ConversionRates crDateLe := ⟨fun a b => le_total a.date b.date⟩

instance : IsTrans ConversionRates crDateLe := ⟨fun _ _ _ h1 h2 => le_trans h1 h2⟩

/-- Date comparator used on `Break` lists. -/
def breakDateLe (a b : Break) : Prop := a.detectedDate ≤ b.detectedDate

instance : DecidableRel breakDateLe := fun a b =>
  inferInstanceAs (Decidable (a.detectedDate ≤ b.detectedDate))

instance : IsTotal Break breakDateLe := ⟨fun a b => le_total a.detectedDate b.detectedDate⟩

instance : IsTrans Break breakDateLe := ⟨fun _ _ _ h1 h2 => le_trans h1 h2⟩

/-- `extractTimeSeries` from `BreakDetector.ts`: project each day's entry for
the given transition (`rateEntry?.rate ?? 0`), sorted by date. -/
def extractTimeSeries (conversionRates : List ConversionRates)
    (fromStage toStage : FunnelStage) : List RateDataPoint :=
  List.insertionSort dpDateLe
    (conversionRates.map fun cr =>
      { date := cr.date
        rate :=
          ((cr.rates.find? fun r =>
              r.fromStage = fromStage ∧ r.toStage = toStage).map (·.rate)).getD 0 })

/-- `pickPeakBreak(cluster)` from `BreakDetector.ts`: `Array.prototype.reduce`
with strict `>` on `|zScore|`, i.e. a left fold from the first element that
keeps the earliest maximum. The nonempty cluster is passed as head + tail. -/
def pickPeakBreak (h : Break) (t : List Break) : Break :=
  t.foldl (fun best curr => if |curr.zScore| > |best.zScore| then curr else best) h

/-- Grouping key of `deduplicateConsecutiveBreaks`: the template string
`funnelId|fromStage|toStage`, modelled as the triple (stage tokens contain no
`|`, so the string key and the triple are in bijection). -/
def breakKey (b : Break) : String × FunnelStage × FunnelStage :=
  (b.funnelId, b.fromStage, b.toStage)

/-- Append a value to the group of key `k`, or open a new group at the end:
one step of filling an insertion-ordered `Map<string, Break[]>`. -/
def groupInsert {K B : Type} [DecidableEq K] :
    List (K × List B) → K → B → List (K × List B)
  | [], k, b => [(k, [b])]
  | (k', bs) :: t, k, b =>
    if k' = k then (k', bs ++ [b]) :: t else (k', bs) :: groupInsert t k b

/-- Group a list by key, preserving first-seen key order and, within each
group, element order: the `Map`-filling loop of `deduplicateConsecutiveBreaks`. -/
def groupByKey {K B : Type} [DecidableEq K] (key : B → K) (l : List B) :
    List (K × List B) :=
  l.foldl (fun acc b => groupInsert acc (key b) b) []

/-- The clustering loop body of `deduplicateConsecutiveBreaks`: walk the
date-sorted group, carrying the open cluster (head `ch`, tail `ct`) and the
previously visited break `prev`; a gap of more than one day closes the
cluster, emitting its peak. -/
def dedupGo (ch : Break) (ct : List Break) (prev : Break) :
    List Break → List Break
  | [] => [pickPeakBreak ch ct]
  | curr :: rest =>
    if daysDiff prev.detectedDate curr.detectedDate ≤ 1 then
      dedupGo ch (ct ++ [curr]) curr rest
    else
      pickPeakBreak ch ct :: dedupGo curr [] curr rest

/-- Per-group work of `deduplicateConsecutiveBreaks`: sort the group by
detected date, then run the clustering loop (groups are nonempty in the
source; the empty case is vacuous). -/
def dedupGroup (g : List Break) : List Break :=
  match List.insertionSort breakDateLe g with
  | [] => []
  | h :: t => dedupGo h [] h t

/-- `deduplicateConsecutiveBreaks(breaks)` from `BreakDetector.ts`. -/
def deduplicateConsecutiveBreaks (breaks : List Break) : List Break :=
  List.insertionSort breakDateLe
    ((groupByKey breakKey breaks).flatMap fun g => dedupGroup g.2)

/-- First-occurrence deduplication: `[...new Set(xs)]`. -/
def uniqueFirst {α : Type} [DecidableEq α] : List α → List α
  | [] => []
  | a :: t => a :: (uniqueFirst t).filter (· ≠ a)

/-- `detectBreaks(conversionRates, config?)` from `BreakDetector.ts`. -/
def detectBreaks (sqrtFn : ℚ → ℚ) (conversionRates : List ConversionRates)
    (config : BreakDetectorConfigOpt) : List Break :=
  let cfg := mergeBreakConfig config
  let funnelIds := uniqueFirst (conversionRates.map (·.funnelId))
  deduplicateConsecutiveBreaks
    (funnelIds.flatMap fun funnelId =>
      let funnelRates :=
        List.insertionSort crDateLe (conversionRates.filter (·.funnelId = funnelId))
      (STAGE_ORDER.zip STAGE_ORDER.tail).flatMap fun p =>
        detectBreaksInSeries sqrtFn (extractTimeSeries funnelRates p.1 p.2)
          funnelId p.1 p.2 cfg)

/-! ### Cause Analyzer (`core/engine/CauseAnalyzer.ts`) -/

/-- `CauseAnalyzerConfig`. -/
structure CauseAnalyzerConfig : Type where
  maxTemporalDistanceDays : ℤ
  temporalWeight : ℚ
  categoryWeight : ℚ
  severityWeight : ℚ
  stageMatchWeight : ℚ
  minConfidenceThreshold : ℚ
deriving DecidableEq, Repr

/-- `DEFAULT_CAUSE_ANALYZER_CONFIG`. -/
def DEFAULT_CAUSE_ANALYZER_CONFIG : CauseAnalyzerConfig :=
  { maxTemporalDistanceDays := 7
    temporalWeight := 40 / 100
    categoryWeight := 30 / 100
    severityWeight := 20 / 100
    stageMatchWeight := 10 / 100
    minConfidenceThreshold := 10 / 100 }

/-- `Partial<CauseAnalyzerConfig>`: every field optional. -/
structure CauseAnalyzerConfigOpt : Type where
  maxTemporalDistanceDays : Option ℤ := none
  temporalWeight : Option ℚ := none
  categoryWeight : Option ℚ := none
  severityWeight : Option ℚ := none
  stageMatchWeight : Option ℚ := none
  minConfidenceThreshold : Option ℚ := none
deriving DecidableEq, Repr

/-- The spread `{ ...DEFAULT_CAUSE_ANALYZER_CONFIG, ...config }` in
`analyzeCauses`. -/
def mergeCauseConfig (c : CauseAnalyzerConfigOpt) : CauseAnalyzerConfig :=
  { maxTemporalDistanceDays :=
      c.maxTemporalDistanceDays.getD DEFAULT_CAUSE_ANALYZER_CONFIG.maxTemporalDistanceDays
    temporalWeight := c.temporalWeight.getD DEFAULT_CAUSE_ANALYZER_CONFIG.temporalWeight
    categoryWeight := c.categoryWeight.getD DEFAULT_CAUSE_ANALYZER_CONFIG.categoryWeight
    severityWeight := c.severityWeight.getD DEFAULT_CAUSE_ANALYZER_CONFIG.severityWeight
    stageMatchWeight := c.stageMatchWeight.getD DEFAULT_CAUSE_ANALYZER_CONFIG.stageMatchWeight
    minConfidenceThreshold :=
      c.minConfidenceThreshold.getD DEFAULT_CAUSE_ANALYZER_CONFIG.minConfidenceThreshold }

/-- Runtime string value of each `ChangeCategory` enum member. -/
def categoryName : ChangeCategory → String
  | .ad => "ad"
  | .site => "site"
  | .external => "external"
  | .tracking => "tracking"
  | .pricing => "pricing"
  | .audience => "audience"

/-- The `CATEGORY_STAGE_RELEVANCE` object literal: for each category, the
transition-keyed relevance entries exactly as written in the source. -/
def CATEGORY_STAGE_RELEVANCE (cat : ChangeCategory) : List (String × ℚ) :=
  match cat with
  | .ad =>
    [("impression->click", 95 / 100), ("click->landing", 60 / 100),
     ("landing->lead", 20 / 100), ("lead->purchase", 10 / 100)]
  | .site =>
    [("impression->click", 5 / 100), ("click->landing", 90 / 100),
     ("landing->lead", 85 / 100), ("lead->purchase", 70 / 100)]
  | .external =>
    [("impression->click", 50 / 100), ("click->landing", 30 / 100),
     ("landing->lead", 40 / 100), ("lead->purchase", 60 / 100)]
  | .tracking =>
    [("impression->click", 80 / 100), ("click->landing", 80 / 100),
     ("landing->lead", 60 / 100), ("lead->purchase", 40 / 100)]
  | .pricing =>
    [("impression->click", 5 / 100), ("click->landing", 10 / 100),
     ("landing->lead", 50 / 100), ("lead->purchase", 95 / 100)]
  | .audience =>
    [("impression->click", 85 / 100), ("click->landing", 70 / 100),
     ("landing->lead", 50 / 100), ("lead->purchase", 30 / 100)]

/-- `calcCategoryRelevance(category, fromStage, toStage)`: table lookup on
the key `` `${fromStage}->${toStage}` `` with default `0.3`. -/
def calcCategoryRelevance (category : ChangeCategory)
    (fromStage toStage : FunnelStage) : ℚ :=
  ((CATEGORY_STAGE_RELEVANCE category).lookup
      (stageName fromStage ++ "->" ++ stageName toStage)).getD (3 / 10)

/-- `calcTemporalScore(changeDate, breakDate, maxDays)`: 0 outside the
window `[0, maxDays]`, else `Math.exp(-0.5 * gap)` with `Math.exp` supplied
as `expFn`. -/
def calcTemporalScore (expFn : ℚ → ℚ) (changeDate breakDate : ℤ) (maxDays : ℤ) : ℚ :=
  let gap := daysDiff changeDate breakDate
  if gap < 0 ∨ gap > maxDays then 0 else expFn (-(1 / 2) * (gap : ℚ))

/-- `calcSeverityScore(severity)`: `(clamp(severity, 1, 5) - 1) / 4`. -/
def calcSeverityScore (severity : ℚ) : ℚ :=
  (min 5 (max 1 severity) - 1) / 4

/-- `calcStageMatchBonus(change, brk)`: `0.2` iff `affectedStages` is present,
non-empty, and contains the break's from- or to-stage token. -/
def calcStageMatchBonus (change : Change) (brk : Break) : ℚ :=
  match change.affectedStages with
  | none => 0
  | some stages =>
    if stages.length = 0 then 0
    else if stages.any fun s => s = stageName brk.fromStage ∨ s = stageName brk.toStage
      then 2 / 10 else 0

/-- `scoreCandidate(change, brk, config)` from `CauseAnalyzer.ts`. -/
def scoreCandidate (expFn : ℚ → ℚ) (change : Change) (brk : Break)
    (config : CauseAnalyzerConfig) : CauseCandidate :=
  let temporalScore :=
    calcTemporalScore expFn change.date brk.detectedDate config.maxTemporalDistanceDays
  let categoryRelevanceScore :=
    calcCategoryRelevance change.category brk.fromStage brk.toStage
  let severityScore := calcSeverityScore change.severity
  let stageMatchBonus := calcStageMatchBonus change brk
  let confidence :=
    min 1 (max 0
      (temporalScore * config.temporalWeight +
        categoryRelevanceScore * config.categoryWeight +
        severityScore * config.severityWeight +
        stageMatchBonus * config.stageMatchWeight))
  { changeId := change.id.getD ""
    changeDescription := change.description
    changeCategory := change.category
    changeDate := change.date
    changeSeverity := change.severity
    confidence := confidence
    scoreBreakdown :=
      { temporalScore := temporalScore
        categoryRelevanceScore := categoryRelevanceScore
        severityScore := severityScore
        stageMatchBonus := stageMatchBonus } }

/-- `determineStatus(causes)` from `CauseAnalyzer.ts`. -/
def determineStatus (causes : List CauseCandidate) : DiagnosisStatus :=
  match causes with
  | [] => .unknown
  | c :: _ => if c.confidence ≥ 6 / 10 then .identified else .uncertain

/-- `severity.toUpperCase()` on the `BreakSeverity` string values. -/
def severityUpper : BreakSeverity → String
  | .warning => "WARNING"
  | .significant => "SIGNIFICANT"
  | .critical => "CRITICAL"

/-- `generateSummary(brk, causes, status)` from `CauseAnalyzer.ts`. The
`toFixed` display roundings are the parameters `fmt1`/`fmt0`; epoch-day dates
print via `toString`. A non-UNKNOWN status with an empty cause list is
unreachable from `determineStatus` (the JS code would throw there); the model
returns the bare header. -/
def generateSummary (fmt1 fmt0 : ℚ → String) (brk : Break)
    (causes : List CauseCandidate) (status : DiagnosisStatus) : String :=
  let dropPct := fmt1 (brk.relativeDrop * 100)
  let transition := stageName brk.fromStage ++ " -> " ++ stageName brk.toStage
  let header :=
    "[" ++ severityUpper brk.severity ++ "] " ++ dropPct ++
      "% conversion drop detected in \"" ++ brk.funnelId ++ "\" at " ++
      transition ++ " on " ++ toString brk.detectedDate ++ "."
  if status = .unknown then
    header ++ " No candidate causes found within the analysis window."
  else
    match causes with
    | [] => header
    | topCause :: _ =>
      let confPct := fmt0 (topCause.confidence * 100)
      if status = .identified then
        header ++ " Most likely cause (" ++ confPct ++ "% confidence): \"" ++
          topCause.changeDescription ++ "\" (" ++
          categoryName topCause.changeCategory ++ ", " ++
          toString topCause.changeDate ++ ")."
      else
        header ++ " Possible cause (" ++ confPct ++ "% confidence): \"" ++
          topCause.changeDescription ++ "\" (" ++
          categoryName topCause.changeCategory ++ ", " ++
          toString topCause.changeDate ++
          "). Low confidence -- manual investigation recommended."

/-- Descending-confidence comparator of the `causes` sort
(`(a, b) => b.confidence - a.confidence`). -/
def candLe (a b : CauseCandidate) : Prop := b.confidence ≤ a.confidence

instance : DecidableRel candLe := fun a b =>
  inferInstanceAs (Decidable (b.confidence ≤ a.confidence))

instance : IsTotal CauseCandidate candLe := ⟨fun a b => le_total b.confidence a.confidence⟩

instance : IsTrans CauseCandidate candLe := ⟨fun _ _ _ h1 h2 => le_trans h2 h1⟩

/-- The eligibility filter of `diagnoseBreak`: same funnel or wildcard `"*"`,
and a change-to-break gap inside `[0, maxTemporalDistanceDays]`. -/
def eligibleChange (change : Change) (brk : Break) (config : CauseAnalyzerConfig) : Prop :=
  (change.funnelId = brk.funnelId ∨ change.funnelId = "*") ∧
    0 ≤ daysDiff change.date brk.detectedDate ∧
    daysDiff change.date brk.detectedDate ≤ config.maxTemporalDistanceDays

instance (c : Change) (b : Break) (cfg : CauseAnalyzerConfig) :
    Decidable (eligibleChange c b cfg) :=
  inferInstanceAs
    (Decidable ((c.funnelId = b.funnelId ∨ c.funnelId = "*") ∧
      0 ≤ daysDiff c.date b.detectedDate ∧
      daysDiff c.date b.detectedDate ≤ cfg.maxTemporalDistanceDays))

/-- `diagnoseBreak(brk, allChanges, config)` from `CauseAnalyzer.ts`. The
`now()` wall-clock read is the explicit parameter `nowT`. -/
def diagnoseBreak (expFn : ℚ → ℚ) (fmt1 fmt0 : ℚ → String) (nowT : String)
    (brk : Break) (allChanges : List Change)
    (config : CauseAnalyzerConfig) : Diagnosis :=
  let candidateChanges := allChanges.filter fun change => eligibleChange change brk config
  let causes :=
    List.insertionSort candLe
      ((candidateChanges.map fun change => scoreCandidate expFn change brk config).filter
        fun c => c.confidence ≥ config.minConfidenceThreshold)
  let diagnosisStatus := determineStatus causes
  { generatedAt := nowT
    breakInfo := brk
    causes := causes
    diagnosisStatus := diagnosisStatus
    summary := generateSummary fmt1 fmt0 brk causes diagnosisStatus }

/-- `analyzeCauses(breaks, changes, config?)` from `CauseAnalyzer.ts`. -/
def analyzeCauses (expFn : ℚ → ℚ) (fmt1 fmt0 : ℚ → String) (nowT : String)
    (breaks : List Break) (changes : List Change)
    (config : CauseAnalyzerConfigOpt) : List Diagnosis :=
  let cfg := mergeCauseConfig config
  breaks.map fun brk => diagnoseBreak expFn fmt1 fmt0 nowT brk changes cfg

/-! ### Spec-side definitions and concrete sample data -/

/-- Spec-side total for one (funnel, date, stage) cell: the sum of the
counts of all matching events. -/
def sumCounts (events : List Event) (f : String) (d : ℤ) (st : FunnelStage) : ℕ :=
  ((events.filter fun e => e.funnelId = f ∧ e.date = d ∧ e.stage = st).map (·.count)).sum

/-- Spec-side clamp of a score to the interval [0, 1]. -/
def clamp01 (x : ℚ) : ℚ := min 1 (max 0 x)

/-- Spec-side temporal score for an in-window change: `exp(-0.5 * gapDays)`. -/
def specTemporalScore (expFn : ℚ → ℚ) (gapDays : ℤ) : ℚ :=
  expFn (-(1 / 2 : ℚ) * (gapDays : ℚ))

/-- Spec-side severity score: `(clamp(severity, 1, 5) - 1) / 4`. -/
def specSeverityScore (s : ℚ) : ℚ := (min 5 (max 1 s) - 1) / 4

/-- Spec-side stage-match bonus: 0.2 iff `affectedStages` is non-empty and
contains the break's from- or to-stage token, else 0. -/
def specStageMatchBonus (ch : Change) (brk : Break) : ℚ :=
  match ch.affectedStages with
  | none => 0
  | some l =>
    if l ≠ [] ∧ (stageName brk.fromStage ∈ l ∨ stageName brk.toStage ∈ l)
      then 1 / 5 else 0

/-- Spec-side peak: the cluster member with maximum `|zScore|`, keeping the
first encountered on ties (a later member replaces the running peak only
when strictly greater). -/
def specPeakBreak : Break → List Break → Break
  | h, [] => h
  | h, c :: t =>
    if |(specPeakBreak c t).zScore| > |h.zScore| then specPeakBreak c t else h

/-- Spec-side clustering of a date-sorted group: consecutive flagged dates
at gap at most one day merge into one cluster; a larger gap starts a new
cluster. -/
def specClusters : List Break → List (List Break)
  | [] => []
  | [a] => [[a]]
  | a :: b :: t =>
    match specClusters (b :: t) with
    | [] => [[a]]
    | c :: cs =>
      if daysDiff a.detectedDate b.detectedDate ≤ 1 then (a :: c) :: cs
      else [a] :: c :: cs

/-- Spec-side collapse of one cluster to its first maximum-`|zScore|` member. -/
def specCollapse : List Break → List Break
  | [] => []
  | h :: t => [specPeakBreak h t]

/-- Code-side collapse of one cluster via the `reduce`-style fold. -/
def codeCollapse : List Break → List Break
  | [] => []
  | h :: t => [pickPeakBreak h t]

/-- A concrete stand-in for `Math.sqrt` (the detector only ever applies it to
the baseline variance; witnesses use a flat baseline where the variance is 0). -/
def sampleSqrt : ℚ → ℚ := fun _ => 0

/-- A concrete rate entry for the impression-to-click transition. -/
def sampleEntry (r : ℚ) (c : ℕ) : RateEntry :=
  { fromStage := .impression, toStage := .click, rate := r, fromCount := 1, toCount := c }

/-- A concrete conversion-rate history: seven flat baseline days then a crash. -/
def sampleSeries : List ConversionRates :=
  [⟨0, "a", [sampleEntry 1 1]⟩, ⟨1, "a", [sampleEntry 1 1]⟩, ⟨2, "a", [sampleEntry 1 1]⟩,
   ⟨3, "a", [sampleEntry 1 1]⟩, ⟨4, "a", [sampleEntry 1 1]⟩, ⟨5, "a", [sampleEntry 1 1]⟩,
   ⟨6, "a", [sampleEntry 1 1]⟩, ⟨10, "a", [sampleEntry 0 0]⟩]

/-- The unique break detected on `sampleSeries` under the default config. -/
def sampleBreak : Break :=
  { funnelId := "a", fromStage := .impression, toStage := .click, detectedDate := 10,
    baselineRate := 1, currentRate := 0, absoluteDrop := 1, relativeDrop := 1,
    zScore := 100, severity := .critical }

/-- A second flagged break one day after `sampleBreak` on the same
funnel and transition, with a larger `|zScore|`. -/
def sampleBreakNext : Break :=
  { funnelId := "a", fromStage := .impression, toStage := .click, detectedDate := 11,
    baselineRate := 1, currentRate := 0, absoluteDrop := 1, relativeDrop := 1,
    zScore := 120, severity := .critical }

/-- A concrete event log: one impression per day on days 0-6 and 10, one
click per day on days 0-6 only — the pipeline detects `sampleBreak`. -/
def sampleEvents : List Event :=
  [⟨0, "a", .impression, 1⟩, ⟨1, "a", .impression, 1⟩, ⟨2, "a", .impression, 1⟩,
   ⟨3, "a", .impression, 1⟩, ⟨4, "a", .impression, 1⟩, ⟨5, "a", .impression, 1⟩,
   ⟨6, "a", .impression, 1⟩, ⟨10, "a", .impression, 1⟩,
   ⟨0, "a", .click, 1⟩, ⟨1, "a", .click, 1⟩, ⟨2, "a", .click, 1⟩,
   ⟨3, "a", .click, 1⟩, ⟨4, "a", .click, 1⟩, ⟨5, "a", .click, 1⟩,
   ⟨6, "a", .click, 1⟩]

/-- Two events on the same (funnel, date, stage) cell, to be summed. -/
def sampleAggEvents : List Event :=
  [⟨0, "a", .impression, 2⟩, ⟨0, "a", .impression, 3⟩]

/-- The single snapshot produced from `sampleAggEvents`. -/
def sampleSnapshot : FunnelSnapshot :=
  { date := 0, funnelId := "a",
    stageCounts := fun st => if st = .impression then 5 else 0 }

/-- A concrete change: a same-day site deploy on the sample break's funnel. -/
def sampleChange : Change :=
  { id := some "ch-1", date := 10, funnelId := "a", category := .site,
    description := "Deployed new landing page", severity := 4,
    affectedStages := some ["impression", "click"] }

/-- A concrete stand-in for `Math.exp` (only its value at 0 matters for the
sample data, where the change-to-break gap is 0 and `exp(0) = 1`). -/
def sampleExp : ℚ → ℚ := fun _ => 1

/-- Constant display formatter used by witness instantiations. -/
def sampleFmt : ℚ → String := fun _ => "0.0"

/-! ### Helper lemmas -/

/-- The peak of a cluster is one of its members. -/
theorem pickPeakBreak_mem : ∀ (t : List Break) (h : Break), pickPeakBreak h t ∈ h :: t := by
  intro t
  induction t with
  | nil => intro h; simp [pickPeakBreak]
  | cons c t ih =>
    intro h
    simp only [pickPeakBreak, List.foldl_cons]
    by_cases hc : |c.zScore| > |h.zScore|
    · rw [if_pos hc]
      have := ih c
      simp only [pickPeakBreak] at this
      exact List.mem_cons_of_mem _ this
    · rw [if_neg hc]
      have := ih h
      simp only [pickPeakBreak] at this
      rcases List.mem_cons.mp this with heq | hmem
      · rw [heq]; exact List.mem_cons_self _ _
      · exact List.mem_cons_of_mem _ (List.mem_cons_of_mem _ hmem)

/-- Everything the clustering loop emits comes from the open cluster or the
remaining input. -/
theorem dedupGo_mem :
    ∀ (rest : List Break) (ch : Break) (ct : List Break) (prev x : Break),
      x ∈ dedupGo ch ct prev rest → x ∈ ch :: (ct ++ rest) := by
  intro rest
  induction rest with
  | nil =>
    intro ch ct prev x hx
    simp only [dedupGo, List.mem_singleton] at hx
    subst hx
    rw [List.append_nil]
    exact pickPeakBreak_mem ct ch
  | cons curr rest ih =>
    intro ch ct prev x hx
    simp only [dedupGo] at hx
    split at hx
    · have := ih ch (ct ++ [curr]) curr x hx
      simpa [List.append_assoc] using this
    · rcases List.mem_cons.mp hx with heq | hmem
      · subst heq
        have hp := pickPeakBreak_mem ct ch
        rcases List.mem_cons.mp hp with h1 | h2
        · rw [h1]; exact List.mem_cons_self _ _
        · exact List.mem_cons_of_mem _ (List.mem_append_left _ h2)
      · have := ih curr [] curr x hmem
        simp only [List.nil_append] at this
        rcases List.mem_cons.mp this with h1 | h2
        · rw [h1]
          exact List.mem_cons_of_mem _ (List.mem_append_right _ (List.mem_cons_self _ _))
        · exact List.mem_cons_of_mem _ (List.mem_append_right _ (List.mem_cons_of_mem _ h2))

/-- Everything `dedupGroup` emits is a member of the group. -/
theorem dedupGroup_mem {g : List Break} {x : Break} (hx : x ∈ dedupGroup g) : x ∈ g := by
  unfold dedupGroup at hx
  rcases hsort : List.insertionSort breakDateLe g with _ | ⟨h, t⟩
  · rw [hsort] at hx; cases hx
  · rw [hsort] at hx
    have := dedupGo_mem t h [] h x hx
    simp only [List.nil_append] at this
    have : x ∈ List.insertionSort breakDateLe g := hsort ▸ this
    exact (List.mem_insertionSort breakDateLe).mp this

/-- `groupInsert` preserves a property of all grouped elements, given the new
element satisfies it. -/
theorem groupInsert_forall {K B : Type} [DecidableEq K] {P : B → Prop} :
    ∀ (acc : List (K × List B)) (k : K) (b : B),
      (∀ p ∈ acc, ∀ x ∈ p.2, P x) → P b →
      ∀ p ∈ groupInsert acc k b, ∀ x ∈ p.2, P x := by
  intro acc
  induction acc with
  | nil =>
    intro k b _ hb p hp x hx
    simp only [groupInsert, List.mem_singleton] at hp
    subst hp
    simp only [List.mem_singleton] at hx
    exact hx ▸ hb
  | cons q t ih =>
    intro k b hacc hb p hp x hx
    obtain ⟨k', bs⟩ := q
    simp only [groupInsert] at hp
    split at hp
    · rcases List.mem_cons.mp hp with heq | hmem
      · subst heq
        rcases List.mem_append.mp hx with h1 | h2
        · exact hacc (k', bs) (List.mem_cons_self _ _) x h1
        · simp only [List.mem_singleton] at h2
          exact h2 ▸ hb
      · exact hacc p (List.mem_cons_of_mem _ hmem) x hx
    · rcases List.mem_cons.mp hp with heq | hmem
      · subst heq
        exact hacc (k', bs) (List.mem_cons_self _ _) x hx
      · exact ih k b (fun p hp => hacc p (List.mem_cons_of_mem _ hp)) hb p hmem x hx

/-- Every element of every group of `groupByKey` comes from the input list. -/
theorem groupByKey_mem {K B : Type} [DecidableEq K] (key : B → K) (l : List B) :
    ∀ p ∈ groupByKey key l, ∀ x ∈ p.2, x ∈ l := by
  suffices h : ∀ (l' : List B) (acc : List (K × List B)),
      (∀ p ∈ acc, ∀ x ∈ p.2, x ∈ l) → (∀ y ∈ l', y ∈ l) →
      ∀ p ∈ l'.foldl (fun acc b => groupInsert acc (key b) b) acc, ∀ x ∈ p.2, x ∈ l by
    exact h l [] (by simp) (fun y hy => hy)
  intro l'
  induction l' with
  | nil => intro acc hacc _ p hp; exact hacc p hp
  | cons b t ih =>
    intro acc hacc hsub p hp
    exact ih (groupInsert acc (key b) b)
      (groupInsert_forall acc (key b) b hacc (hsub b (List.mem_cons_self _ _)))
      (fun y hy => hsub y (List.mem_cons_of_mem _ hy)) p hp

/-- Deduplication only ever returns breaks present in its input. -/
theorem deduplicate_mem {bs : List Break} {b : Break}
    (h : b ∈ deduplicateConsecutiveBreaks bs) : b ∈ bs := by
  unfold deduplicateConsecutiveBreaks at h
  rw [List.mem_insertionSort] at h
  rw [List.mem_flatMap] at h
  obtain ⟨g, hg, hb⟩ := h
  exact groupByKey_mem breakKey bs g hg b (dedupGroup_mem hb)

/-- Full description of any break emitted by `breakAtDate`: the window
guards held, and every field is the corresponding statistic of the two
windows. -/
theorem breakAtDate_spec {sqrtFn : ℚ → ℚ} {ts : List RateDataPoint} {d : ℤ}
    {fid : String} {fs tos : FunnelStage} {cfg : BreakDetectorConfig} {b : Break}
    (h : breakAtDate sqrtFn ts d fid fs tos cfg = some b) :
    b.funnelId = fid ∧ b.fromStage = fs ∧ b.toStage = tos ∧ b.detectedDate = d ∧
    b.baselineRate =
      mean ((ts.filter fun dp => cfg.currentWindowDays ≤ daysDiff dp.date d ∧
        daysDiff dp.date d < cfg.baselineWindowDays + cfg.currentWindowDays).map (·.rate)) ∧
    b.currentRate =
      mean ((ts.filter fun dp => 0 ≤ daysDiff dp.date d ∧
        daysDiff dp.date d < cfg.currentWindowDays).map (·.rate)) ∧
    b.baselineRate ≠ 0 ∧
    b.absoluteDrop = b.baselineRate - b.currentRate ∧
    b.relativeDrop = b.absoluteDrop / b.baselineRate ∧
    b.zScore = b.absoluteDrop /
      max (stddev sqrtFn ((ts.filter fun dp => cfg.currentWindowDays ≤ daysDiff dp.date d ∧
        daysDiff dp.date d < cfg.baselineWindowDays + cfg.currentWindowDays).map (·.rate)))
        (1 / 100) ∧
    cfg.minRelativeDrop ≤ b.relativeDrop ∧ cfg.minZScore ≤ |b.zScore| ∧
    b.severity = classifySeverity b.relativeDrop b.zScore := by
  simp only [breakAtDate] at h
  split at h
  · cases h
  · split at h
    · cases h
    · split at h
      · cases h
      · split at h
        · rename_i hthr
          obtain ⟨hrd, hz⟩ := hthr
          cases h
          refine ⟨rfl, rfl, rfl, rfl, rfl, rfl, by assumption, rfl, rfl, rfl, hrd, hz, rfl⟩
        · cases h

/-- Any break in the output of `detectBreaks` was emitted by `breakAtDate`
on the extracted time series of some funnel and stage pair, at some
candidate date drawn from that series. -/
theorem detectBreaks_mem {sqrtFn : ℚ → ℚ} {rates : List ConversionRates}
    {cfgO : BreakDetectorConfigOpt} {b : Break}
    (h : b ∈ detectBreaks sqrtFn rates cfgO) :
    ∃ (fid : String) (fs tos : FunnelStage) (d : ℤ),
      breakAtDate sqrtFn
        (extractTimeSeries
          (List.insertionSort crDateLe (rates.filter (·.funnelId = fid))) fs tos)
        d fid fs tos (mergeBreakConfig cfgO) = some b := by
  unfold detectBreaks at h
  have h' := deduplicate_mem h
  rw [List.mem_flatMap] at h'
  obtain ⟨fid, _, h2⟩ := h'
  rw [List.mem_flatMap] at h2
  obtain ⟨p, _, h3⟩ := h2
  unfold detectBreaksInSeries at h3
  rw [List.mem_filterMap] at h3
  obtain ⟨dp, _, h4⟩ := h3
  exact ⟨fid, p.1, p.2, dp.date, h4⟩

/-! ### C1 -/

/-- C1: every break returned by `detectBreaks`, under any partial
configuration merged onto the defaults, satisfies
`relativeDrop >= cfg.minRelativeDrop` and `|zScore| >= cfg.minZScore`. -/
theorem detectBreaks_thresholds (sqrtFn : ℚ → ℚ) (rates : List ConversionRates)
    (config : BreakDetectorConfigOpt) (b : Break)
    (hb : b ∈ detectBreaks sqrtFn rates config) :
    (mergeBreakConfig config).minRelativeDrop ≤ b.relativeDrop ∧
    (mergeBreakConfig config).minZScore ≤ |b.zScore| := by
  obtain ⟨fid, fs, tos, d, h⟩ := detectBreaks_mem hb
  obtain ⟨-, -, -, -, -, -, -, -, -, -, h1, h2, -⟩ := breakAtDate_spec h
  exact ⟨h1, h2⟩

/-- Witness for C1: on the concrete crashing series, the detected break
passes both default thresholds (relativeDrop 1 >= 0.15, |zScore| 100 >= 1.5). -/
theorem detectBreaks_thresholds_witness :
    (mergeBreakConfig {}).minRelativeDrop ≤ sampleBreak.relativeDrop ∧
    (mergeBreakConfig {}).minZScore ≤ |sampleBreak.zScore| :=
  detectBreaks_thresholds sampleSqrt sampleSeries {} sampleBreak
    (by with_unfolding_all decide)

/-! ### C2 -/

/-- C2: flagged breaks carry `classifySeverity relativeDrop zScore`, and
`classifySeverity` uses strict `>` at every boundary: CRITICAL iff
`relativeDrop > 0.40` or `|zScore| > 3.0`, else SIGNIFICANT iff
`relativeDrop > 0.20` or `|zScore| > 2.0`, else WARNING; in particular a
relative drop of exactly 0.40 with `|zScore| <= 3.0` is SIGNIFICANT. -/
theorem severity_classification :
    (∀ (sqrtFn : ℚ → ℚ) (rates : List ConversionRates)
        (cfgO : BreakDetectorConfigOpt) (b : Break),
      b ∈ detectBreaks sqrtFn rates cfgO →
        b.severity = classifySeverity b.relativeDrop b.zScore) ∧
    (∀ rd z : ℚ, (40 / 100 < rd ∨ 3 < |z|) → classifySeverity rd z = .critical) ∧
    (∀ rd z : ℚ, rd ≤ 40 / 100 → |z| ≤ 3 → (20 / 100 < rd ∨ 2 < |z|) →
      classifySeverity rd z = .significant) ∧
    (∀ rd z : ℚ, rd ≤ 20 / 100 → |z| ≤ 2 → classifySeverity rd z = .warning) ∧
    (∀ z : ℚ, |z| ≤ 3 → classifySeverity (40 / 100) z = .significant) := by
  refine ⟨?_, ?_, ?_, ?_, ?_⟩
  · intro sqrtFn rates cfgO b hb
    obtain ⟨fid, fs, tos, d, h⟩ := detectBreaks_mem hb
    obtain ⟨-, -, -, -, -, -, -, -, -, -, -, -, hsev⟩ := breakAtDate_spec h
    exact hsev
  · intro rd z h
    unfold classifySeverity
    rw [if_pos h]
  · intro rd z h1 h2 h3
    unfold classifySeverity
    rw [if_neg (by push_neg; exact ⟨h1, h2⟩ : ¬(rd > 40 / 100 ∨ |z| > 3)), if_pos h3]
  · intro rd z h1 h2
    unfold classifySeverity
    rw [if_neg (by push_neg; constructor <;> linarith : ¬(rd > 40 / 100 ∨ |z| > 3)),
      if_neg (by push_neg; exact ⟨h1, h2⟩ : ¬(rd > 20 / 100 ∨ |z| > 2))]
  · intro z hz
    unfold classifySeverity
    rw [if_neg (by push_neg; exact ⟨le_refl _, hz⟩ : ¬(40 / 100 > (40:ℚ) / 100 ∨ |z| > 3)),
      if_pos (Or.inl (by norm_num))]

/-- Witness for C2: the sample break's stored severity is its
classification, and the exact-0.40 boundary case lands on SIGNIFICANT. -/
theorem severity_classification_witness :
    sampleBreak.severity = classifySeverity sampleBreak.relativeDrop sampleBreak.zScore ∧
    classifySeverity (40 / 100) 3 = .significant ∧
    classifySeverity (50 / 100) 0 = .critical ∧
    classifySeverity (10 / 100) 1 = .warning :=
  ⟨severity_classification.1 sampleSqrt sampleSeries {} sampleBreak
      (by with_unfolding_all decide),
    severity_classification.2.2.2.2 3 (by norm_num),
    severity_classification.2.1 (50 / 100) 0 (Or.inl (by norm_num)),
    severity_classification.2.2.2.1 (10 / 100) 1 (by norm_num) (by norm_num)⟩

/-! ### C8 -/

/-- Shape of every rate entry produced by `calculateConversionRates`: it
comes from some input snapshot and adjacent stage pair, with the guarded
division as its rate. -/
theorem calcRates_shape {snapshots : List FunnelSnapshot} {cr : ConversionRates}
    {r : RateEntry} (hcr : cr ∈ calculateConversionRates snapshots)
    (hr : r ∈ cr.rates) :
    ∃ (s : FunnelSnapshot) (p : FunnelStage × FunnelStage), s ∈ snapshots ∧
      r = { fromStage := p.1, toStage := p.2,
            rate := if s.stageCounts p.1 > 0
              then (s.stageCounts p.2 : ℚ) / (s.stageCounts p.1 : ℚ) else 0,
            fromCount := s.stageCounts p.1, toCount := s.stageCounts p.2 } := by
  unfold calculateConversionRates at hcr
  rw [List.mem_map] at hcr
  obtain ⟨s, hs, rfl⟩ := hcr
  simp only [List.mem_map] at hr
  obtain ⟨p, hp, rfl⟩ := hr
  exact ⟨s, p, hs, rfl⟩

/-- C8: no division by zero in the core. `calculateConversionRates` only
divides when `fromCount > 0` and returns 0 when `fromCount = 0`; and
`detectBreaks` skips any candidate date with baseline mean 0, so every
emitted break has a non-zero `baselineRate` (the `relativeDrop` divisor) —
the `zScore` divisor is floored at 0.01 by construction. -/
theorem no_division_by_zero :
    (∀ (snapshots : List FunnelSnapshot) (cr : ConversionRates) (r : RateEntry),
      cr ∈ calculateConversionRates snapshots → r ∈ cr.rates →
        (0 < r.fromCount → r.rate = (r.toCount : ℚ) / (r.fromCount : ℚ)) ∧
        (r.fromCount = 0 → r.rate = 0)) ∧
    (∀ (sqrtFn : ℚ → ℚ) (rates : List ConversionRates)
        (cfgO : BreakDetectorConfigOpt) (b : Break),
      b ∈ detectBreaks sqrtFn rates cfgO → b.baselineRate ≠ 0) := by
  constructor
  · intro snapshots cr r hcr hr
    obtain ⟨s, p, -, rfl⟩ := calcRates_shape hcr hr
    constructor
    · intro hpos
      simp only at hpos ⊢
      rw [if_pos hpos]
    · intro hzero
      simp only at hzero ⊢
      rw [if_neg (by omega)]
  · intro sqrtFn rates cfgO b hb
    obtain ⟨fid, fs, tos, d, h⟩ := detectBreaks_mem hb
    obtain ⟨-, -, -, -, -, -, hne, -⟩ := breakAtDate_spec h
    exact hne

/-- Witness for C8: on a concrete snapshot with two impressions and one
click, the emitted impression-to-click entry's rate is the guarded division
1/2, and the sample break's baseline rate is non-zero. -/
theorem no_division_by_zero_witness :
    ((1 : ℚ) / 2 = ((1 : ℕ) : ℚ) / ((2 : ℕ) : ℚ)) ∧
    sampleBreak.baselineRate ≠ 0 := by
  constructor
  · exact (no_division_by_zero.1
      [{ date := 0, funnelId := "a",
         stageCounts := fun st => if st = .impression then 2 else if st = .click then 1 else 0 }]
      { date := 0, funnelId := "a",
        rates := [⟨.impression, .click, 1 / 2, 2, 1⟩,
                  ⟨.click, .landing, 0, 1, 0⟩,
                  ⟨.landing, .lead, 0, 0, 0⟩,
                  ⟨.lead, .purchase, 0, 0, 0⟩] }
      ⟨.impression, .click, 1 / 2, 2, 1⟩
      (by with_unfolding_all decide) (by with_unfolding_all decide)).1 (by norm_num)
  · exact no_division_by_zero.2 sampleSqrt sampleSeries {} sampleBreak
      (by with_unfolding_all decide)

/-! ### C10 -/

/-- The mean of a list of non-negative rationals is non-negative. -/
theorem mean_nonneg {l : List ℚ} (h : ∀ x ∈ l, 0 ≤ x) : 0 ≤ mean l := by
  unfold mean
  split
  · exact le_refl 0
  · exact div_nonneg (List.sum_nonneg h) (by positivity)

/-- Every rate in an extracted time series is either the padding 0 or a rate
taken from the input conversion-rate entries. -/
theorem extractTimeSeries_rate {crs : List ConversionRates} {fs tos : FunnelStage}
    {dp : RateDataPoint} (hdp : dp ∈ extractTimeSeries crs fs tos) :
    dp.rate = 0 ∨ ∃ cr ∈ crs, ∃ r ∈ cr.rates, r.rate = dp.rate := by
  unfold extractTimeSeries at hdp
  rw [List.mem_insertionSort, List.mem_map] at hdp
  obtain ⟨cr, hcr, rfl⟩ := hdp
  dsimp only
  rcases hfind : cr.rates.find? fun r => decide (r.fromStage = fs ∧ r.toStage = tos) with
    _ | r
  · left; rw [hfind]; rfl
  · right
    refine ⟨cr, hcr, r, List.mem_of_find?_eq_some hfind, ?_⟩
    rw [hfind]
    rfl

/-- On a series of non-negative rates, any break emitted by `breakAtDate`
under a strictly positive `minRelativeDrop` is a genuine drop. -/
theorem breakAtDate_drop {sqrtFn : ℚ → ℚ} {ts : List RateDataPoint} {d : ℤ}
    {fid : String} {fs tos : FunnelStage} {cfg : BreakDetectorConfig} {b : Break}
    (hts : ∀ dp ∈ ts, 0 ≤ dp.rate) (hmin : 0 < cfg.minRelativeDrop)
    (h : breakAtDate sqrtFn ts d fid fs tos cfg = some b) :
    0 < b.baselineRate ∧ 0 < b.absoluteDrop ∧ 0 < b.zScore ∧
      b.currentRate < b.baselineRate := by
  obtain ⟨-, -, -, -, hbase, -, hne, habs, hrel, hz, hmind, -, -⟩ := breakAtDate_spec h
  have hb0 : 0 ≤ b.baselineRate := by
    rw [hbase]
    apply mean_nonneg
    intro x hx
    rw [List.mem_map] at hx
    obtain ⟨dp, hdp, rfl⟩ := hx
    exact hts dp (List.mem_of_mem_filter hdp)
  have hbpos : 0 < b.baselineRate := lt_of_le_of_ne hb0 (Ne.symm hne)
  have hrdpos : 0 < b.relativeDrop := lt_of_lt_of_le hmin hmind
  have hadpos : 0 < b.absoluteDrop := by
    have hprod : b.absoluteDrop = b.relativeDrop * b.baselineRate := by
      rw [hrel]; field_simp
    rw [hprod]
    exact mul_pos hrdpos hbpos
  refine ⟨hbpos, hadpos, ?_, ?_⟩
  · rw [hz]
    exact div_pos hadpos (lt_of_lt_of_le (by norm_num) (le_max_right _ _))
  · linarith [habs ▸ hadpos]

/-- C10: under any configuration with `minRelativeDrop > 0`, every break is
a genuine drop — strictly positive baseline rate, absolute drop and z-score,
and a current rate strictly below the baseline. Stated both for any
conversion-rate input with non-negative rates (the data-model invariant) and,
hypothesis-free, for any event list run through the full pipeline. -/
theorem detectBreaks_genuine_drop :
    (∀ (sqrtFn : ℚ → ℚ) (rates : List ConversionRates)
        (cfgO : BreakDetectorConfigOpt) (b : Break),
      (∀ cr ∈ rates, ∀ r ∈ cr.rates, 0 ≤ r.rate) →
      0 < (mergeBreakConfig cfgO).minRelativeDrop →
      b ∈ detectBreaks sqrtFn rates cfgO →
      0 < b.baselineRate ∧ 0 < b.absoluteDrop ∧ 0 < b.zScore ∧
        b.currentRate < b.baselineRate) ∧
    (∀ (sqrtFn : ℚ → ℚ) (events : List Event)
        (cfgO : BreakDetectorConfigOpt) (b : Break),
      0 < (mergeBreakConfig cfgO).minRelativeDrop →
      b ∈ detectBreaks sqrtFn (calculateConversionRates (buildSnapshots events)) cfgO →
      0 < b.baselineRate ∧ 0 < b.absoluteDrop ∧ 0 < b.zScore ∧
        b.currentRate < b.baselineRate) := by
  have main : ∀ (sqrtFn : ℚ → ℚ) (rates : List ConversionRates)
      (cfgO : BreakDetectorConfigOpt) (b : Break),
      (∀ cr ∈ rates, ∀ r ∈ cr.rates, 0 ≤ r.rate) →
      0 < (mergeBreakConfig cfgO).minRelativeDrop →
      b ∈ detectBreaks sqrtFn rates cfgO →
      0 < b.baselineRate ∧ 0 < b.absoluteDrop ∧ 0 < b.zScore ∧
        b.currentRate < b.baselineRate := by
    intro sqrtFn rates cfgO b hnn hmin hb
    obtain ⟨fid, fs, tos, d, h⟩ := detectBreaks_mem hb
    apply breakAtDate_drop ?_ hmin h
    intro dp hdp
    rcases extractTimeSeries_rate hdp with h0 | ⟨cr, hcr, r, hr, hrate⟩
    · rw [h0]
    · rw [List.mem_insertionSort, List.mem_filter] at hcr
      exact hrate ▸ hnn cr hcr.1 r hr
  refine ⟨main, ?_⟩
  intro sqrtFn events cfgO b hmin hb
  apply main sqrtFn _ cfgO b ?_ hmin hb
  intro cr hcr r hr
  obtain ⟨s, p, -, rfl⟩ := calcRates_shape hcr hr
  simp only
  split
  · positivity
  · exact le_refl 0

/-- Witness for C10: the full event pipeline on `sampleEvents` flags
`sampleBreak`, a genuine drop. -/
theorem detectBreaks_genuine_drop_witness :
    0 < sampleBreak.baselineRate ∧ 0 < sampleBreak.absoluteDrop ∧
    0 < sampleBreak.zScore ∧ sampleBreak.currentRate < sampleBreak.baselineRate :=
  detectBreaks_genuine_drop.2 sampleSqrt sampleEvents {} sampleBreak
    (by norm_num [mergeBreakConfig, DEFAULT_BREAK_DETECTOR_CONFIG])
    (by with_unfolding_all decide)

/-! ### C5 -/

/-- C5: every cause candidate in any diagnosis produced by `analyzeCauses`
stems from an input change that passed the eligibility filter — same
funnel id or the wildcard `"*"`, and a detection-to-change gap inside
`[0, maxTemporalDistanceDays]`; no future-dated, funnel-mismatched or
too-old change is ever scored into the cause list. -/
theorem analyzeCauses_eligibility (expFn : ℚ → ℚ) (fmt1 fmt0 : ℚ → String)
    (nowT : String) (breaks : List Break) (changes : List Change)
    (cfgO : CauseAnalyzerConfigOpt) (d : Diagnosis) (c : CauseCandidate)
    (hd : d ∈ analyzeCauses expFn fmt1 fmt0 nowT breaks changes cfgO)
    (hc : c ∈ d.causes) :
    ∃ ch ∈ changes,
      (ch.funnelId = d.breakInfo.funnelId ∨ ch.funnelId = "*") ∧
      0 ≤ daysDiff ch.date d.breakInfo.detectedDate ∧
      daysDiff ch.date d.breakInfo.detectedDate ≤
        (mergeCauseConfig cfgO).maxTemporalDistanceDays ∧
      c = scoreCandidate expFn ch d.breakInfo (mergeCauseConfig cfgO) := by
  unfold analyzeCauses at hd
  rw [List.mem_map] at hd
  obtain ⟨brk, -, rfl⟩ := hd
  unfold diagnoseBreak at hc
  simp only at hc
  rw [List.mem_insertionSort, List.mem_filter, List.mem_map] at hc
  obtain ⟨⟨ch, hch, rfl⟩, -⟩ := hc
  rw [List.mem_filter] at hch
  obtain ⟨hmem, helig⟩ := hch
  rw [decide_eq_true_eq] at helig
  obtain ⟨hfun, hlo, hhi⟩ := helig
  exact ⟨ch, hmem, hfun, hlo, hhi, rfl⟩

set_option maxRecDepth 40000 in
/-- Witness for C5: on the sample break and the same-day change, the unique
diagnosis's unique cause is the scored `sampleChange`, which is eligible. -/
theorem analyzeCauses_eligibility_witness :
    ∃ ch ∈ [sampleChange],
      (ch.funnelId = sampleBreak.funnelId ∨ ch.funnelId = "*") ∧
      0 ≤ daysDiff ch.date sampleBreak.detectedDate ∧
      daysDiff ch.date sampleBreak.detectedDate ≤
        (mergeCauseConfig {}).maxTemporalDistanceDays ∧
      scoreCandidate sampleExp sampleChange sampleBreak (mergeCauseConfig {}) =
        scoreCandidate sampleExp ch sampleBreak (mergeCauseConfig {}) := by
  have h := analyzeCauses_eligibility sampleExp sampleFmt sampleFmt "t"
    [sampleBreak] [sampleChange] {}
    (diagnoseBreak sampleExp sampleFmt sampleFmt "t" sampleBreak [sampleChange]
      (mergeCauseConfig {}))
    (scoreCandidate sampleExp sampleChange sampleBreak (mergeCauseConfig {}))
    (by with_unfolding_all decide) (by with_unfolding_all decide)
  simpa only [diagnoseBreak] using h

/-! ### C6 -/

/-- C6: for every eligible change, the candidate's confidence is the clamp
to [0, 1] of the four weighted sub-scores, with the sub-scores exactly as the
spec words them (temporal `exp(-0.5 gap)`, the fixed category table with
default 0.3, `(clamp(sev,1,5)-1)/4`, stage bonus 0.2); and every diagnosis's
cause list keeps exactly the scored eligible candidates at or above the
confidence threshold, sorted by confidence descending (stably, via the
stable `insertionSort`). -/
theorem confidence_scoring :
    (∀ (expFn : ℚ → ℚ) (ch : Change) (brk : Break) (cfg : CauseAnalyzerConfig),
      eligibleChange ch brk cfg →
        (scoreCandidate expFn ch brk cfg).scoreBreakdown =
          { temporalScore := specTemporalScore expFn (daysDiff ch.date brk.detectedDate)
            categoryRelevanceScore := calcCategoryRelevance ch.category brk.fromStage brk.toStage
            severityScore := specSeverityScore ch.severity
            stageMatchBonus := specStageMatchBonus ch brk } ∧
        (scoreCandidate expFn ch brk cfg).confidence =
          clamp01
            (specTemporalScore expFn (daysDiff ch.date brk.detectedDate) * cfg.temporalWeight +
              calcCategoryRelevance ch.category brk.fromStage brk.toStage * cfg.categoryWeight +
              specSeverityScore ch.severity * cfg.severityWeight +
              specStageMatchBonus ch brk * cfg.stageMatchWeight)) ∧
    (∀ (expFn : ℚ → ℚ) (fmt1 fmt0 : ℚ → String) (nowT : String)
        (breaks : List Break) (changes : List Change) (cfgO : CauseAnalyzerConfigOpt),
      ∀ d ∈ analyzeCauses expFn fmt1 fmt0 nowT breaks changes cfgO,
        (∀ c ∈ d.causes, (mergeCauseConfig cfgO).minConfidenceThreshold ≤ c.confidence) ∧
        d.causes.Sorted candLe ∧
        d.causes = List.insertionSort candLe
          (((changes.filter fun ch =>
              eligibleChange ch d.breakInfo (mergeCauseConfig cfgO)).map fun ch =>
                scoreCandidate expFn ch d.breakInfo (mergeCauseConfig cfgO)).filter
            fun c => c.confidence ≥ (mergeCauseConfig cfgO).minConfidenceThreshold)) := by
  constructor
  · intro expFn ch brk cfg helig
    obtain ⟨-, hlo, hhi⟩ := helig
    have htemp : calcTemporalScore expFn ch.date brk.detectedDate cfg.maxTemporalDistanceDays =
        specTemporalScore expFn (daysDiff ch.date brk.detectedDate) := by
      unfold calcTemporalScore specTemporalScore
      rw [if_neg (by push_neg; exact ⟨not_lt.mp (by simpa using hlo), hhi⟩ :
        ¬(daysDiff ch.date brk.detectedDate < 0 ∨
          daysDiff ch.date brk.detectedDate > cfg.maxTemporalDistanceDays))]
    have hbonus : calcStageMatchBonus ch brk = specStageMatchBonus ch brk := by
      unfold calcStageMatchBonus specStageMatchBonus
      rcases ch.affectedStages with _ | l
      · rfl
      · dsimp only
        rcases l with _ | ⟨s, l'⟩
        · simp
        · have hany : ((s :: l').any fun x =>
              decide (x = stageName brk.fromStage ∨ x = stageName brk.toStage)) = true ↔
              (stageName brk.fromStage ∈ s :: l' ∨ stageName brk.toStage ∈ s :: l') := by
            rw [List.any_eq_true]
            constructor
            · rintro ⟨x, hx, hor⟩
              rcases decide_eq_true_eq.mp hor with rfl | rfl
              · exact Or.inl hx
              · exact Or.inr hx
            · rintro (h | h)
              · exact ⟨_, h, decide_eq_true_eq.mpr (Or.inl rfl)⟩
              · exact ⟨_, h, decide_eq_true_eq.mpr (Or.inr rfl)⟩
          by_cases hm : stageName brk.fromStage ∈ s :: l' ∨ stageName brk.toStage ∈ s :: l'
          · rw [if_neg (by simp), if_pos (hany.mpr hm), if_pos ⟨by simp, hm⟩]
            norm_num
          · rw [if_neg (by simp), if_neg (fun hc => hm (hany.mp hc)),
              if_neg (fun hc => hm hc.2)]
    constructor
    · unfold scoreCandidate
      dsimp only
      rw [htemp, hbonus]
      exact rfl
    · unfold scoreCandidate clamp01
      dsimp only
      rw [htemp, hbonus]
      exact rfl
  · intro expFn fmt1 fmt0 nowT breaks changes cfgO d hd
    unfold analyzeCauses at hd
    rw [List.mem_map] at hd
    obtain ⟨brk, -, rfl⟩ := hd
    refine ⟨?_, ?_, ?_⟩
    · intro c hc
      unfold diagnoseBreak at hc
      simp only at hc
      rw [List.mem_insertionSort, List.mem_filter] at hc
      exact (decide_eq_true_eq).mp hc.2
    · exact List.sorted_insertionSort candLe _
    · rfl

/-- Witness for C6: the scored same-day site change on the sample break has
the claimed clamped weighted-sum confidence. -/
theorem confidence_scoring_witness :
    (scoreCandidate sampleExp sampleChange sampleBreak (mergeCauseConfig {})).confidence =
      clamp01
        (specTemporalScore sampleExp (daysDiff sampleChange.date sampleBreak.detectedDate) *
            (mergeCauseConfig {}).temporalWeight +
          calcCategoryRelevance sampleChange.category sampleBreak.fromStage sampleBreak.toStage *
            (mergeCauseConfig {}).categoryWeight +
          specSeverityScore sampleChange.severity * (mergeCauseConfig {}).severityWeight +
          specStageMatchBonus sampleChange sampleBreak * (mergeCauseConfig {}).stageMatchWeight) :=
  (confidence_scoring.1 sampleExp sampleChange sampleBreak (mergeCauseConfig {})
    (by decide)).2

/-! ### C7 -/

/-- Case analysis of `determineStatus`: UNKNOWN iff no candidates,
IDENTIFIED iff the top candidate's confidence is at least 0.6, UNCERTAIN
iff the top candidate's confidence is below 0.6. -/
theorem determineStatus_spec (causes : List CauseCandidate) :
    (determineStatus causes = .unknown ↔ causes = []) ∧
    (determineStatus causes = .identified ↔
      ∃ c, causes.head? = some c ∧ 6 / 10 ≤ c.confidence) ∧
    (determineStatus causes = .uncertain ↔
      ∃ c, causes.head? = some c ∧ c.confidence < 6 / 10) := by
  rcases causes with _ | ⟨c, t⟩
  · refine ⟨by simp [determineStatus], by simp [determineStatus], by simp [determineStatus]⟩
  · unfold determineStatus
    dsimp only
    by_cases hc : c.confidence ≥ 6 / 10
    · rw [if_pos hc]
      refine ⟨by simp, ⟨fun _ => ⟨c, rfl, hc⟩, fun _ => rfl⟩, ?_, ?_⟩
      · intro h; exact absurd h (by simp)
      · rintro ⟨c', hc', hlt⟩
        rw [List.head?_cons, Option.some.injEq] at hc'
        exact absurd hlt (not_lt.mpr (hc' ▸ hc))
    · rw [if_neg hc]
      have hlt := lt_of_not_ge hc
      refine ⟨by simp, ⟨fun h => absurd h (by simp), ?_⟩, fun _ => ⟨c, rfl, hlt⟩,
        fun _ => rfl⟩
      rintro ⟨c', hc', hge⟩
      rw [List.head?_cons, Option.some.injEq] at hc'
      exact absurd hge (not_le.mpr (hc' ▸ hlt))

/-- C7: for every diagnosis produced by `analyzeCauses`, `diagnosisStatus`
is UNKNOWN iff the surviving cause list is empty, IDENTIFIED iff the top
cause's confidence is at least 0.6, and UNCERTAIN iff it is below 0.6. -/
theorem diagnosis_status (expFn : ℚ → ℚ) (fmt1 fmt0 : ℚ → String) (nowT : String)
    (breaks : List Break) (changes : List Change) (cfgO : CauseAnalyzerConfigOpt)
    (d : Diagnosis) (hd : d ∈ analyzeCauses expFn fmt1 fmt0 nowT breaks changes cfgO) :
    (d.diagnosisStatus = .unknown ↔ d.causes = []) ∧
    (d.diagnosisStatus = .identified ↔
      ∃ c, d.causes.head? = some c ∧ 6 / 10 ≤ c.confidence) ∧
    (d.diagnosisStatus = .uncertain ↔
      ∃ c, d.causes.head? = some c ∧ c.confidence < 6 / 10) := by
  unfold analyzeCauses at hd
  rw [List.mem_map] at hd
  obtain ⟨brk, -, rfl⟩ := hd
  exact determineStatus_spec _

/-- Witness for C7: a diagnosis with no candidate changes is UNKNOWN with an
empty cause list. -/
theorem diagnosis_status_witness :
    (diagnoseBreak sampleExp sampleFmt sampleFmt "t" sampleBreak []
        (mergeCauseConfig {})).diagnosisStatus = .unknown ∧
    (diagnoseBreak sampleExp sampleFmt sampleFmt "t" sampleBreak []
        (mergeCauseConfig {})).causes = [] := by
  have h := (diagnosis_status sampleExp sampleFmt sampleFmt "t" [sampleBreak] [] {}
    (diagnoseBreak sampleExp sampleFmt sampleFmt "t" sampleBreak []
      (mergeCauseConfig {}))
    (by with_unfolding_all decide)).1
  have hempty : (diagnoseBreak sampleExp sampleFmt sampleFmt "t" sampleBreak []
      (mergeCauseConfig {})).causes = [] := by with_unfolding_all decide
  exact ⟨h.mpr hempty, hempty⟩

/-! ### C9 -/

/-- Counterexample for C9: two runs of `analyzeCauses` on identical inputs
and configuration, differing only in the wall-clock reading taken for
`Diagnosis.generatedAt`, produce different outputs — the output is not a
function of inputs and configuration alone. -/
theorem analyzeCauses_clock_dependence :
    analyzeCauses sampleExp sampleFmt sampleFmt "2025-01-01T00:00:00.000Z"
        [sampleBreak] [] {} ≠
      analyzeCauses sampleExp sampleFmt sampleFmt "2025-01-02T00:00:00.000Z"
        [sampleBreak] [] {} := by
  with_unfolding_all decide

/-- C9 (amended): the core is deterministic in inputs, configuration and the
wall clock: two runs of `analyzeCauses` with equal inputs and configuration
agree on every `Diagnosis` field except `generatedAt`, and `generatedAt` is
exactly the clock reading of the run. (`buildSnapshots`,
`calculateConversionRates` and `detectBreaks` take no clock at all.) -/
theorem core_determinism_modulo_clock (expFn : ℚ → ℚ) (fmt1 fmt0 : ℚ → String)
    (t1 t2 : String) (breaks : List Break) (changes : List Change)
    (cfgO : CauseAnalyzerConfigOpt) :
    ((analyzeCauses expFn fmt1 fmt0 t1 breaks changes cfgO).map fun d =>
        (d.breakInfo, d.causes, d.diagnosisStatus, d.summary)) =
      ((analyzeCauses expFn fmt1 fmt0 t2 breaks changes cfgO).map fun d =>
        (d.breakInfo, d.causes, d.diagnosisStatus, d.summary)) ∧
    ∀ d ∈ analyzeCauses expFn fmt1 fmt0 t1 breaks changes cfgO,
      d.generatedAt = t1 := by
  constructor
  · unfold analyzeCauses diagnoseBreak
    rw [List.map_map, List.map_map]
    rfl
  · intro d hd
    unfold analyzeCauses at hd
    rw [List.mem_map] at hd
    obtain ⟨brk, -, rfl⟩ := hd
    rfl

/-- Witness for C9's amended statement: on the sample run the clock string
is copied into `generatedAt` and the clock-independent projection agrees
across two different clock readings. -/
theorem core_determinism_modulo_clock_witness :
    (diagnoseBreak sampleExp sampleFmt sampleFmt "t1" sampleBreak []
      (mergeCauseConfig {})).generatedAt = "t1" :=
  (core_determinism_modulo_clock sampleExp sampleFmt sampleFmt "t1" "t2"
    [sampleBreak] [] {}).2
    (diagnoseBreak sampleExp sampleFmt sampleFmt "t1" sampleBreak []
      (mergeCauseConfig {}))
    (by with_unfolding_all decide)

/-! ### C4 -/

/-- Appending one event adds its count to exactly its own cell. -/
theorem sumCounts_concat (evs : List Event) (e : Event) (f : String) (d : ℤ)
    (st : FunnelStage) :
    sumCounts (evs ++ [e]) f d st =
      sumCounts evs f d st +
        (if e.funnelId = f ∧ e.date = d ∧ e.stage = st then e.count else 0) := by
  unfold sumCounts
  rw [List.filter_append]
  by_cases h : e.funnelId = f ∧ e.date = d ∧ e.stage = st
  · simp [h]
  · simp [h]

/-- A cell with no matching (funnel, date) events sums to 0. -/
theorem sumCounts_eq_zero {evs : List Event} {f : String} {d : ℤ}
    (h : ∀ e ∈ evs, ¬(e.funnelId = f ∧ e.date = d)) (st : FunnelStage) :
    sumCounts evs f d st = 0 := by
  unfold sumCounts
  rw [List.filter_eq_nil_iff.mpr ?_]
  · rfl
  · intro e he
    simp only [decide_eq_true_eq]
    intro hc
    exact h e he ⟨hc.1, hc.2.1⟩

/-- Digit characters have codes 48-57 and decode back to their value. -/
theorem digitChar_spec :
    ∀ m : ℕ, m < 10 →
      48 ≤ (digitChar m).toNat ∧ (digitChar m).toNat ≤ 57 ∧
        charDigit (digitChar m) = m := by
  intro m hm
  interval_cases m <;> decide

/-- Every character of the decimal rendering is a digit (codes 48-57). -/
theorem natToChars_digits :
    ∀ (fuel n : ℕ), ∀ c ∈ natToChars fuel n, 48 ≤ c.toNat ∧ c.toNat ≤ 57 := by
  intro fuel
  induction fuel with
  | zero => intro n c hc; simp [natToChars] at hc
  | succ fuel ih =>
    intro n c hc
    simp only [natToChars] at hc
    split at hc
    · rename_i hlt
      rw [List.mem_singleton] at hc
      subst hc
      exact ⟨(digitChar_spec n hlt).1, (digitChar_spec n hlt).2.1⟩
    · rw [List.mem_append] at hc
      rcases hc with h1 | h1
      · exact ih _ c h1
      · rw [List.mem_singleton] at h1
        subst h1
        have hm : n % 10 < 10 := Nat.mod_lt n (by norm_num)
        exact ⟨(digitChar_spec _ hm).1, (digitChar_spec _ hm).2.1⟩

/-- The decimal rendering is never empty when fuelled. -/
theorem natToChars_ne_nil :
    ∀ (fuel n : ℕ), fuel ≠ 0 → natToChars fuel n ≠ [] := by
  intro fuel n h
  cases fuel with
  | zero => exact absurd rfl h
  | succ fuel =>
    simp only [natToChars]
    split
    · simp
    · simp

/-- Reading one more appended digit. -/
theorem charsToNat_append (l : List Char) (c : Char) :
    charsToNat (l ++ [c]) = 10 * charsToNat l + charDigit c := by
  unfold charsToNat
  rw [List.foldl_append]
  rfl

/-- Reading the decimal rendering back returns the number. -/
theorem natToChars_roundtrip :
    ∀ (fuel n : ℕ), n < fuel → charsToNat (natToChars fuel n) = n := by
  intro fuel
  induction fuel with
  | zero => intro n h; exact absurd h (Nat.not_lt_zero n)
  | succ fuel ih =>
    intro n hn
    simp only [natToChars]
    split
    · rename_i hlt
      interval_cases n <;> decide
    · rename_i hge
      push_neg at hge
      rw [charsToNat_append]
      have hdiv : n / 10 < fuel := by
        have h1 : n / 10 < n := Nat.div_lt_self (by omega) (by norm_num)
        omega
      rw [ih (n / 10) hdiv]
      have hm : n % 10 < 10 := Nat.mod_lt n (by norm_num)
      rw [(digitChar_spec _ hm).2.2]
      omega

/-- Reading an epoch-day rendering back returns the day. -/
theorem parseDateChars_intChars (d : ℤ) : parseDateChars (intChars d) = d := by
  cases d with
  | ofNat m =>
    show parseDateChars (natStr m) = Int.ofNat m
    have hne : natStr m ≠ [] := natToChars_ne_nil (m + 1) m (Nat.succ_ne_zero m)
    have hrt : charsToNat (natStr m) = m :=
      natToChars_roundtrip (m + 1) m (Nat.lt_succ_self m)
    rcases hl : natStr m with _ | ⟨c, r⟩
    · exact absurd hl hne
    · have hc : c ∈ natStr m := by rw [hl]; exact List.mem_cons_self _ _
      have hd := natToChars_digits (m + 1) m c hc
      have hneg : ¬ ((c :: r).head? = some '-') := by
        rw [List.head?_cons, Option.some.injEq]
        intro hcon
        subst hcon
        have hminus : ('-').toNat = 45 := rfl
        omega
      rw [hl] at hrt
      unfold parseDateChars
      rw [if_neg hneg, hrt]
      rfl
  | negSucc m =>
    show parseDateChars ('-' :: natStr (m + 1)) = Int.negSucc m
    unfold parseDateChars
    rw [if_pos (by rw [List.head?_cons])]
    have hdrop : (('-' :: natStr (m + 1)).drop 1) = natStr (m + 1) := rfl
    rw [hdrop,
      show charsToNat (natStr (m + 1)) = m + 1 from
        natToChars_roundtrip (m + 2) (m + 1) (Nat.lt_succ_self _)]
    rw [Int.negSucc_eq]
    push_cast
    ring

/-- The separator never occurs in a rendered date. -/
theorem intChars_no_bar (d : ℤ) : '|' ∉ intChars d := by
  intro hmem
  have hbar : ('|').toNat = 124 := rfl
  cases d with
  | ofNat m =>
    have := natToChars_digits (m + 1) m '|' hmem
    omega
  | negSucc m =>
    rcases List.mem_cons.mp hmem with h | h
    · exact absurd h (by decide)
    · have := natToChars_digits (m + 2) (m + 1) '|' h
      omega

/-- Splitting a separator-free list yields that one segment. -/
theorem barSplit_no_bar : ∀ l : List Char, '|' ∉ l → barSplit l = [l] := by
  intro l
  induction l with
  | nil => intro _; rfl
  | cons c t ih =>
    intro h
    have hc : c ≠ '|' := fun hcon => h (hcon ▸ List.mem_cons_self _ _)
    simp only [barSplit]
    rw [if_neg hc, ih (fun hm => h (List.mem_cons_of_mem _ hm))]

/-- Splitting around the first separator after a separator-free prefix. -/
theorem barSplit_append : ∀ (f s : List Char), '|' ∉ f →
    barSplit (f ++ '|' :: s) = f :: barSplit s := by
  intro f
  induction f with
  | nil =>
    intro s _
    show barSplit ('|' :: s) = [] :: barSplit s
    simp [barSplit]
  | cons c f' ih =>
    intro s h
    have hc : c ≠ '|' := fun hcon => h (hcon ▸ List.mem_cons_self _ _)
    rw [List.cons_append]
    simp only [barSplit]
    rw [if_neg hc, ih s (fun hm => h (List.mem_cons_of_mem _ hm))]

/-- A list splits uniquely at its first separator. -/
theorem bar_decomp : ∀ (r1 r2 x1 x2 : List Char), '|' ∉ r1 → '|' ∉ r2 →
    r1 ++ '|' :: x1 = r2 ++ '|' :: x2 → r1 = r2 ∧ x1 = x2 := by
  intro r1
  induction r1 with
  | nil =>
    intro r2 x1 x2 _ h2 heq
    cases r2 with
    | nil =>
      rw [List.nil_append, List.nil_append] at heq
      exact ⟨rfl, (List.cons_eq_cons.mp heq).2⟩
    | cons c r2' =>
      rw [List.nil_append, List.cons_append] at heq
      obtain ⟨hc, -⟩ := List.cons_eq_cons.mp heq
      exact absurd (hc ▸ List.mem_cons_self c r2') h2
  | cons c r1' ih =>
    intro r2 x1 x2 h1 h2 heq
    cases r2 with
    | nil =>
      rw [List.cons_append, List.nil_append] at heq
      obtain ⟨hc, -⟩ := List.cons_eq_cons.mp heq
      exact absurd (hc ▸ List.mem_cons_self c r1') h1
    | cons c' r2' =>
      rw [List.cons_append, List.cons_append] at heq
      obtain ⟨hc, hrest⟩ := List.cons_eq_cons.mp heq
      obtain ⟨hr, hx⟩ := ih r2' x1 x2 (fun hm => h1 (List.mem_cons_of_mem _ hm))
        (fun hm => h2 (List.mem_cons_of_mem _ hm)) hrest
      exact ⟨by rw [hc, hr], hx⟩

/-- The grouping key determines the (funnelId, date) pair: the date segment
is separator-free, so the key's last separator sits between the two. -/
theorem pairKey_inj {f1 f2 : String} {d1 d2 : ℤ}
    (h : pairKey f1 d1 = pairKey f2 d2) : f1 = f2 ∧ d1 = d2 := by
  unfold pairKey at h
  have hrev : (intChars d1).reverse ++ '|' :: f1.data.reverse =
      (intChars d2).reverse ++ '|' :: f2.data.reverse := by
    have hr := congrArg List.reverse h
    simpa [List.reverse_append, List.append_assoc] using hr
  obtain ⟨hr, hf⟩ := bar_decomp _ _ _ _
    (fun hm => intChars_no_bar d1 (List.mem_reverse.mp hm))
    (fun hm => intChars_no_bar d2 (List.mem_reverse.mp hm)) hrev
  constructor
  · have hdata : f1.data = f2.data := by
      have := congrArg List.reverse hf
      simpa using this
    cases f1
    cases f2
    exact congrArg String.mk hdata
  · have hic : intChars d1 = intChars d2 := by
      have := congrArg List.reverse hr
      simpa using this
    have := congrArg parseDateChars hic
    rwa [parseDateChars_intChars, parseDateChars_intChars] at this

/-- Decoding the key of a separator-free funnelId recovers the funnelId. -/
theorem keyFunnelId_pairKey {f : String} (hf : '|' ∉ f.data) (d : ℤ) :
    keyFunnelId (pairKey f d) = f := by
  unfold keyFunnelId pairKey
  rw [barSplit_append f.data (intChars d) hf]
  rfl

/-- Decoding the key of a separator-free funnelId recovers the date. -/
theorem keyDate_pairKey {f : String} (hf : '|' ∉ f.data) (d : ℤ) :
    keyDate (pairKey f d) = d := by
  unfold keyDate pairKey
  rw [barSplit_append f.data (intChars d) hf,
    barSplit_no_bar (intChars d) (intChars_no_bar d)]
  exact parseDateChars_intChars d

/-- Key list of the grouping map after one insertion: unchanged if the
event's key is present, else the key is appended. -/
theorem insertEvent_keys (e : Event) :
    ∀ acc : List (List Char × (FunnelStage → ℕ)),
      (insertEvent acc e).map Prod.fst =
        if snapKey e ∈ acc.map Prod.fst then acc.map Prod.fst
        else acc.map Prod.fst ++ [snapKey e] := by
  intro acc
  induction acc with
  | nil => simp [insertEvent]
  | cons q t ih =>
    obtain ⟨k, m⟩ := q
    by_cases hk : k = snapKey e
    · subst hk
      simp [insertEvent]
    · simp only [insertEvent, if_neg hk, List.map_cons, ih]
      by_cases hmem : snapKey e ∈ t.map Prod.fst
      · rw [if_pos hmem, if_pos (List.mem_cons_of_mem _ hmem)]
      · have hnotin : snapKey e ∉ k :: t.map Prod.fst := by
          rw [List.mem_cons]
          rintro (h | h)
          · exact hk h.symm
          · exact hmem h
        rw [if_neg hmem, if_neg hnotin, List.cons_append]

/-- Provenance of each entry of the grouping map after one insertion: under
unique keys, either an untouched entry with a different key, or the event's
key with its stage bumped on an existing or fresh stage-count map. -/
theorem insertEvent_values (e : Event) :
    ∀ acc : List (List Char × (FunnelStage → ℕ)),
      (acc.map Prod.fst).Nodup →
      ∀ p ∈ insertEvent acc e,
        (p.1 ≠ snapKey e ∧ p ∈ acc) ∨
        (p.1 = snapKey e ∧
          ∃ m₀ : FunnelStage → ℕ,
            ((snapKey e, m₀) ∈ acc ∨
              (m₀ = fun _ => 0) ∧ snapKey e ∉ acc.map Prod.fst) ∧
            p.2 = updStage m₀ e.stage e.count) := by
  intro acc
  induction acc with
  | nil =>
    intro _ p hp
    simp only [insertEvent, List.mem_singleton] at hp
    subst hp
    exact Or.inr ⟨rfl, fun _ => 0, Or.inr ⟨rfl, by simp⟩, rfl⟩
  | cons q t ih =>
    intro hnd p hp
    obtain ⟨k, m⟩ := q
    rw [List.map_cons] at hnd
    by_cases hk : k = snapKey e
    · subst hk
      rw [insertEvent, if_pos rfl] at hp
      rcases List.mem_cons.mp hp with heq | hmem
      · subst heq
        exact Or.inr ⟨rfl, m, Or.inl (List.mem_cons_self _ _), rfl⟩
      · left
        refine ⟨?_, List.mem_cons_of_mem _ hmem⟩
        intro hcon
        have hin : p.1 ∈ t.map Prod.fst := List.mem_map_of_mem Prod.fst hmem
        rw [hcon] at hin
        exact (List.nodup_cons.mp hnd).1 hin
    · rw [insertEvent, if_neg hk] at hp
      rcases List.mem_cons.mp hp with heq | hmem
      · subst heq
        exact Or.inl ⟨hk, List.mem_cons_self _ _⟩
      · rcases ih (List.nodup_cons.mp hnd).2 p hmem with ⟨hne, hin⟩ | ⟨heq, m₀, hsrc, hupd⟩
        · exact Or.inl ⟨hne, List.mem_cons_of_mem _ hin⟩
        · refine Or.inr ⟨heq, m₀, ?_, hupd⟩
          rcases hsrc with h1 | ⟨h1, h2⟩
          · exact Or.inl (List.mem_cons_of_mem _ h1)
          · refine Or.inr ⟨h1, ?_⟩
            rw [List.map_cons, List.mem_cons]
            rintro (h | h)
            · exact hk h.symm
            · exact h2 h

/-- Full correctness of the grouping fold of `buildSnapshots`: unique keys,
keys exactly the `` `${funnelId}|${date}` `` keys of the input events, and
each entry's count map giving the per-stage sums at its key's true
(funnelId, date) pair. -/
theorem foldl_insertEvent_spec (events : List Event) :
    (((events.foldl insertEvent []).map Prod.fst).Nodup) ∧
    (∀ k, k ∈ (events.foldl insertEvent []).map Prod.fst ↔
      ∃ e ∈ events, snapKey e = k) ∧
    (∀ p ∈ events.foldl insertEvent [], ∀ (f : String) (d : ℤ), p.1 = pairKey f d →
      ∀ st, p.2 st = sumCounts events f d st) := by
  induction events using List.reverseRecOn with
  | nil => exact ⟨List.nodup_nil, by simp, by simp⟩
  | append_singleton evs e ih =>
    obtain ⟨ihnd, ihkeys, ihval⟩ := ih
    rw [List.foldl_append, List.foldl_cons, List.foldl_nil]
    have hkeys := insertEvent_keys e (evs.foldl insertEvent [])
    refine ⟨?_, ?_, ?_⟩
    · rw [hkeys]
      split
      · exact ihnd
      · rename_i hnotin
        refine List.Nodup.append ihnd (List.nodup_singleton _) ?_
        intro a ha hb
        rw [List.mem_singleton] at hb
        subst hb
        exact hnotin ha
    · intro k
      rw [hkeys]
      constructor
      · intro hk
        split at hk
        · obtain ⟨e', he', hke⟩ := (ihkeys k).mp hk
          exact ⟨e', List.mem_append_left _ he', hke⟩
        · rcases List.mem_append.mp hk with h1 | h1
          · obtain ⟨e', he', hke⟩ := (ihkeys k).mp h1
            exact ⟨e', List.mem_append_left _ he', hke⟩
          · rw [List.mem_singleton] at h1
            exact ⟨e, List.mem_append_right _ (List.mem_singleton_self _), h1.symm⟩
      · rintro ⟨e', he', hke⟩
        rcases List.mem_append.mp he' with h1 | h1
        · have hmem := (ihkeys k).mpr ⟨e', h1, hke⟩
          split
          · exact hmem
          · exact List.mem_append_left _ hmem
        · rw [List.mem_singleton] at h1
          subst h1
          split
          · rename_i hin; exact hke ▸ hin
          · exact List.mem_append_right _ (List.mem_singleton (a := k) |>.mpr hke.symm)
    · intro p hp f d hpk st
      rcases insertEvent_values e (evs.foldl insertEvent []) ihnd p hp with
        ⟨hne, hin⟩ | ⟨heq, m₀, hsrc, hupd⟩
      · rw [ihval p hin f d hpk st, sumCounts_concat, if_neg ?_, Nat.add_zero]
        intro hcon
        apply hne
        rw [hpk, ← hcon.1, ← hcon.2.1]
        rfl
      · have hfd : f = e.funnelId ∧ d = e.date := by
          have hpp : pairKey f d = pairKey e.funnelId e.date := by
            rw [← hpk, heq]; rfl
          exact pairKey_inj hpp
        obtain ⟨hf, hd⟩ := hfd
        subst hf
        subst hd
        rw [hupd]
        rcases hsrc with h1 | ⟨h1, h2⟩
        · have hm0 : ∀ st', m₀ st' = sumCounts evs e.funnelId e.date st' :=
            fun st' => ihval (snapKey e, m₀) h1 e.funnelId e.date rfl st'
          rw [sumCounts_concat]
          simp only [updStage]
          by_cases hst : st = e.stage
          · subst hst
            rw [if_pos rfl, hm0 e.stage, if_pos (by simp)]
          · rw [if_neg hst, hm0 st, if_neg ?_, Nat.add_zero]
            intro hcon
            exact hst hcon.2.2.symm
        · have hzero : ∀ st', sumCounts evs e.funnelId e.date st' = 0 := by
            intro st'
            apply sumCounts_eq_zero
            intro e' he' hcon
            refine h2 ((ihkeys (snapKey e)).mpr ⟨e', he', ?_⟩)
            unfold snapKey pairKey
            rw [hcon.1, hcon.2]
          rw [h1, sumCounts_concat, hzero st]
          simp only [updStage]
          by_cases hst : st = e.stage
          · subst hst
            rw [if_pos rfl, if_pos (by simp)]
          · rw [if_neg hst, if_neg ?_]
            intro hcon
            exact hst hcon.2.2.symm

/-- Counterexample for C4: on a well-typed event whose funnelId contains
the separator `'|'`, `buildSnapshots` emits a snapshot with the truncated
funnelId `"a"`, and no snapshot at all carries the event's own
(funnelId, date) pair — the split-based reconstruction corrupts the key. -/
theorem buildSnapshots_key_corruption :
    ((buildSnapshots [⟨5, "a|b", .impression, 2⟩]).map fun s => s.funnelId) = ["a"] ∧
    ¬ (("a|b", (5 : ℤ)) ∈ (buildSnapshots [⟨5, "a|b", .impression, 2⟩]).map
        fun s => (s.funnelId, s.date)) := by
  with_unfolding_all decide

/-- C4 (amended: funnelIds free of the key separator `'|'`): `buildSnapshots`
emits exactly one snapshot per distinct (funnelId, date) pair of the input,
whose per-stage counts are the sums of all matching events' counts (stages
with no event read 0, and multiple events on one cell add up), sorted by
funnelId then date; empty input gives empty output. -/
theorem buildSnapshots_spec (events : List Event)
    (hbar : ∀ e ∈ events, '|' ∉ e.funnelId.data) :
    ((buildSnapshots events).map fun s => (s.funnelId, s.date)).Nodup ∧
    (∀ k : String × ℤ,
      k ∈ (buildSnapshots events).map (fun s => (s.funnelId, s.date)) ↔
        ∃ e ∈ events, (e.funnelId, e.date) = k) ∧
    (∀ s ∈ buildSnapshots events, ∀ st,
      s.stageCounts st = sumCounts events s.funnelId s.date st) ∧
    (buildSnapshots events).Sorted snapLe ∧
    (events = [] → buildSnapshots events = []) := by
  obtain ⟨hnd, hkeys, hval⟩ := foldl_insertEvent_spec events
  have hbs : buildSnapshots events = List.insertionSort snapLe
      ((events.foldl insertEvent []).map fun km =>
        { date := keyDate km.1, funnelId := keyFunnelId km.1, stageCounts := km.2 }) := rfl
  have hdecode : ∀ k ∈ (events.foldl insertEvent []).map Prod.fst,
      ∃ e ∈ events, snapKey e = k ∧ keyFunnelId k = e.funnelId ∧ keyDate k = e.date := by
    intro k hk
    obtain ⟨e, he, hek⟩ := (hkeys k).mp hk
    exact ⟨e, he, hek,
      by rw [← hek]; exact keyFunnelId_pairKey (hbar e he) e.date,
      by rw [← hek]; exact keyDate_pairKey (hbar e he) e.date⟩
  have hkeymap : (((events.foldl insertEvent []).map fun km =>
      ({ date := keyDate km.1, funnelId := keyFunnelId km.1,
         stageCounts := km.2 } : FunnelSnapshot)).map
        fun s => (s.funnelId, s.date)) =
      ((events.foldl insertEvent []).map Prod.fst).map
        fun k => (keyFunnelId k, keyDate k) := by
    rw [List.map_map, List.map_map]
    rfl
  have hperm : List.Perm
      ((List.insertionSort snapLe ((events.foldl insertEvent []).map fun km =>
        ({ date := keyDate km.1, funnelId := keyFunnelId km.1,
           stageCounts := km.2 } : FunnelSnapshot))).map
          fun s => (s.funnelId, s.date))
      (((events.foldl insertEvent []).map Prod.fst).map
        fun k => (keyFunnelId k, keyDate k)) := by
    rw [← hkeymap]
    exact (List.perm_insertionSort snapLe _).map _
  refine ⟨?_, ?_, ?_, ?_, ?_⟩
  · rw [hbs]
    refine hperm.nodup_iff.mpr ?_
    refine List.Nodup.map_on ?_ hnd
    intro k1 hk1 k2 hk2 hdeq
    obtain ⟨e1, he1, hek1, hf1, hd1⟩ := hdecode k1 hk1
    obtain ⟨e2, he2, hek2, hf2, hd2⟩ := hdecode k2 hk2
    have hfe : e1.funnelId = e2.funnelId := by
      rw [← hf1, ← hf2]
      exact congrArg Prod.fst hdeq
    have hde : e1.date = e2.date := by
      rw [← hd1, ← hd2]
      exact congrArg Prod.snd hdeq
    rw [← hek1, ← hek2]
    unfold snapKey
    rw [hfe, hde]
  · intro k
    rw [hbs, hperm.mem_iff, List.mem_map]
    constructor
    · rintro ⟨k0, hk0, rfl⟩
      obtain ⟨e, he, hek, hf, hd⟩ := hdecode k0 hk0
      exact ⟨e, he, by rw [hf, hd]⟩
    · rintro ⟨e, he, hke⟩
      refine ⟨snapKey e, (hkeys (snapKey e)).mpr ⟨e, he, rfl⟩, ?_⟩
      rw [← hke]
      unfold snapKey
      rw [keyFunnelId_pairKey (hbar e he), keyDate_pairKey (hbar e he)]
  · intro s hs st
    rw [hbs, List.mem_insertionSort, List.mem_map] at hs
    obtain ⟨km, hkm, rfl⟩ := hs
    have hk : km.1 ∈ (events.foldl insertEvent []).map Prod.fst :=
      List.mem_map_of_mem Prod.fst hkm
    obtain ⟨e, he, hek, hf, hd⟩ := hdecode km.1 hk
    simp only
    rw [hf, hd]
    exact hval km hkm e.funnelId e.date (by rw [← hek]; rfl) st
  · rw [hbs]
    exact List.sorted_insertionSort snapLe _
  · intro he
    subst he
    rfl

/-- Witness for C4: the two impression events of `sampleAggEvents` (whose
funnelId `"a"` is separator-free) are summed (2 + 3 = 5), never
overwritten. -/
theorem buildSnapshots_spec_witness :
    sampleSnapshot.stageCounts .impression =
      sumCounts sampleAggEvents sampleSnapshot.funnelId sampleSnapshot.date .impression :=
  (buildSnapshots_spec sampleAggEvents (by decide)).2.2.1 sampleSnapshot
    (by with_unfolding_all decide) .impression

/-! ### C3 -/

/-- The spec-side peak never has a smaller `|zScore|` than the cluster head. -/
theorem specPeakBreak_ge_head :
    ∀ (t : List Break) (h : Break), |h.zScore| ≤ |(specPeakBreak h t).zScore| := by
  intro t
  induction t with
  | nil => intro h; exact le_refl _
  | cons c t ih =>
    intro h
    simp only [specPeakBreak]
    split
    · rename_i hgt
      exact le_of_lt hgt
    · exact le_refl _

/-- The code's `reduce`-based peak equals the spec's first-maximum peak. -/
theorem pickPeakBreak_eq_specPeak :
    ∀ (t : List Break) (h : Break), pickPeakBreak h t = specPeakBreak h t := by
  intro t
  induction t with
  | nil => intro h; rfl
  | cons c t ih =>
    intro h
    have hstep : pickPeakBreak h (c :: t) =
        pickPeakBreak (if |c.zScore| > |h.zScore| then c else h) t := rfl
    rw [hstep, ih]
    show specPeakBreak (if |c.zScore| > |h.zScore| then c else h) t =
      specPeakBreak h (c :: t)
    rcases t with _ | ⟨d, t'⟩
    · simp only [specPeakBreak]
    · by_cases h1 : |c.zScore| > |h.zScore|
      · rw [if_pos h1]
        have hge : |c.zScore| ≤ |(specPeakBreak c (d :: t')).zScore| :=
          specPeakBreak_ge_head (d :: t') c
        show specPeakBreak c (d :: t') =
          if |(specPeakBreak c (d :: t')).zScore| > |h.zScore| then
            specPeakBreak c (d :: t') else h
        rw [if_pos (lt_of_lt_of_le h1 hge)]
      · rw [if_neg h1]
        push_neg at h1
        by_cases h2 : |(specPeakBreak d t').zScore| > |c.zScore|
        · have hc : specPeakBreak c (d :: t') = specPeakBreak d t' := by
            simp only [specPeakBreak]
            rw [if_pos h2]
          show (if |(specPeakBreak d t').zScore| > |h.zScore| then specPeakBreak d t'
              else h) =
            if |(specPeakBreak c (d :: t')).zScore| > |h.zScore| then
              specPeakBreak c (d :: t') else h
          rw [hc]
        · have hc : specPeakBreak c (d :: t') = c := by
            simp only [specPeakBreak]
            rw [if_neg h2]
          push_neg at h2
          show (if |(specPeakBreak d t').zScore| > |h.zScore| then specPeakBreak d t'
              else h) =
            if |(specPeakBreak c (d :: t')).zScore| > |h.zScore| then
              specPeakBreak c (d :: t') else h
          rw [hc, if_neg (not_lt.mpr (le_trans h2 h1)), if_neg (not_lt.mpr h1)]

/-- The first cluster of `specClusters` starts at the head of the list. -/
theorem specClusters_head :
    ∀ (l : List Break) (a : Break),
      ∃ ct cs, specClusters (a :: l) = (a :: ct) :: cs := by
  intro l
  induction l with
  | nil => exact fun a => ⟨[], [], rfl⟩
  | cons b t ih =>
    intro a
    obtain ⟨ct, cs, hbt⟩ := ih b
    by_cases hgap : daysDiff a.detectedDate b.detectedDate ≤ 1
    · exact ⟨b :: ct, cs, by simp only [specClusters, hbt, if_pos hgap]⟩
    · exact ⟨[], (b :: ct) :: cs, by simp only [specClusters, hbt, if_neg hgap]⟩

/-- The clustering loop of `deduplicateConsecutiveBreaks` computes, cluster
by cluster, the collapse of the spec-side clustering of the remaining
sequence, with the open cluster prepended to the first spec cluster's tail. -/
theorem dedupGo_eq_specClusters :
    ∀ (rest : List Break) (prev ch : Break) (ct : List Break),
      dedupGo ch ct prev rest =
        match specClusters (prev :: rest) with
        | [] => []
        | c :: cs => pickPeakBreak ch (ct ++ c.tail) :: cs.flatMap codeCollapse := by
  intro rest
  induction rest with
  | nil =>
    intro prev ch ct
    simp [dedupGo, specClusters]
  | cons curr rest ih =>
    intro prev ch ct
    obtain ⟨ct', cs', hsc⟩ := specClusters_head rest curr
    by_cases hgap : daysDiff prev.detectedDate curr.detectedDate ≤ 1
    · rw [show dedupGo ch ct prev (curr :: rest) =
          dedupGo ch (ct ++ [curr]) curr rest from by
            simp only [dedupGo]; rw [if_pos hgap],
        ih curr ch (ct ++ [curr]),
        show specClusters (prev :: curr :: rest) = (prev :: curr :: ct') :: cs' from by
          simp only [specClusters, hsc, if_pos hgap],
        hsc]
      simp [List.append_assoc]
    · rw [show dedupGo ch ct prev (curr :: rest) =
          pickPeakBreak ch ct :: dedupGo curr [] curr rest from by
            simp only [dedupGo]; rw [if_neg hgap],
        ih curr curr [],
        show specClusters (prev :: curr :: rest) = [prev] :: (curr :: ct') :: cs' from by
          simp only [specClusters, hsc, if_neg hgap],
        hsc]
      simp [codeCollapse]

/-- Per-group deduplication: sort by date, cluster, collapse each cluster to
its first maximum-`|zScore|` member. -/
theorem dedupGroup_eq (g : List Break) :
    dedupGroup g =
      (specClusters (List.insertionSort breakDateLe g)).flatMap specCollapse := by
  unfold dedupGroup
  rcases hs : List.insertionSort breakDateLe g with _ | ⟨h, t⟩
  · rfl
  · dsimp only
    rw [dedupGo_eq_specClusters t h h []]
    obtain ⟨ct, cs, hsc⟩ := specClusters_head t h
    rw [hsc]
    have hcc : codeCollapse = specCollapse := by
      funext c
      cases c with
      | nil => rfl
      | cons x xs =>
        simp [codeCollapse, specCollapse, pickPeakBreak_eq_specPeak]
    simp [hcc, pickPeakBreak_eq_specPeak, specCollapse]

/-- C3: `deduplicateConsecutiveBreaks` groups raw flags by
(funnelId, fromStage, toStage); within each date-sorted group, consecutive
flags at gap at most one day merge into one cluster; each cluster collapses
to exactly its first maximum-`|zScore|` member; and the final list is sorted
by detectedDate ascending — and consists only of input breaks. -/
theorem deduplication_spec (bs : List Break) :
    deduplicateConsecutiveBreaks bs =
      List.insertionSort breakDateLe
        ((groupByKey breakKey bs).flatMap fun g =>
          (specClusters (List.insertionSort breakDateLe g.2)).flatMap specCollapse) ∧
    (deduplicateConsecutiveBreaks bs).Sorted breakDateLe ∧
    ∀ b ∈ deduplicateConsecutiveBreaks bs, b ∈ bs := by
  refine ⟨?_, ?_, fun b hb => deduplicate_mem hb⟩
  · unfold deduplicateConsecutiveBreaks
    congr 1
    simp only [dedupGroup_eq]
  · unfold deduplicateConsecutiveBreaks
    exact List.sorted_insertionSort breakDateLe _

/-- Witness for C3: deduplicating the two consecutive sample breaks keeps
only the max-`|zScore|` member, which comes from the input list. -/
theorem deduplication_spec_witness :
    sampleBreakNext ∈ [sampleBreak, sampleBreakNext] :=
  (deduplication_spec [sampleBreak, sampleBreakNext]).2.2 sampleBreakNext
    (by with_unfolding_all decide)
